import Mathlib

/-!
Verification development for the OOXML structural analyzer
(`parsers/doc_parser.py`, `parsers/paragraph_parser.py`,
`parsers/drawing_parser.py`, `parsers/table_parser.py`,
`parsers/image_parser.py`, `parsers/utils.py`,
`analysis/document_analyzer.py`).

Modelling conventions (shallow embedding):
* Python numbers are modelled as exact rationals (`ℚ`); the source's decimal
  literals (0.0352778, …) are taken at face value.  `round(x, n)` is modelled
  by `roundTo` (round-half-to-even, as Python's `round`).
* Python `None`-or-value is `Option`; a `try/except`-swallowing conversion
  returns `Option` (absence instead of an exception).
* An XML element (`xml.etree.ElementTree.Element`) is `Xml`: tag, attribute
  list, optional text, children.  Namespace-qualified names `{uri}local` are
  written in prefix form (`"w:p"`, `"a:graphic"`, …); the `NS` table of
  `parsers/utils.py` is a fixed bijection between prefixes and URIs, so this
  renaming is faithful.  `find`/`findall` with a `.//`-path are modelled on
  the pre-order list of proper descendants, as in ElementTree.
* Python `str.strip()` is modelled by `pyStrip` (whitespace trim; the
  documents under test are produced and consumed with ASCII whitespace).
-/

namespace DocxSpec

/-! ### Python-style string primitives -/

/-- Python `str.strip()` (whitespace trim), written with structural list
recursion. -/
def pyStrip (s : String) : String :=
  String.mk (((s.data.dropWhile Char.isWhitespace).reverse.dropWhile
    Char.isWhitespace).reverse)

/-- Python `s.startswith(p)`. -/
def strStarts (s p : String) : Bool :=
  p.data.isPrefixOf s.data

/-- Python `s.endswith(p)`. -/
def strEnds (s p : String) : Bool :=
  p.data.reverse.isPrefixOf s.data.reverse

/-- Does `pat` occur as a contiguous subsequence of `l`? -/
def containsSeq (pat : List Char) : List Char → Bool
  | [] => pat.isPrefixOf []
  | c :: rest => pat.isPrefixOf (c :: rest) || containsSeq pat rest

/-- Python `sub in s` for strings. -/
def containsSub (s sub : String) : Bool :=
  containsSeq sub.data s.data

/-- Python `s.split(c)` for a one-character separator. -/
def splitOnChar (s : String) (c : Char) : List String :=
  (s.data.splitOn c).map String.mk

/-! ### Python-style numeric primitives -/

/-- Python `round` to an integer: round-half-to-even. -/
def pyRound (q : ℚ) : ℤ :=
  let f : ℤ := ⌊q⌋
  let r : ℚ := q - f
  if r < 1/2 then f
  else if 1/2 < r then f + 1
  else if f % 2 = 0 then f else f + 1

/-- Python `round(q, n)`. -/
def roundTo (q : ℚ) (n : ℕ) : ℚ :=
  (pyRound (q * 10 ^ n) : ℚ) / 10 ^ n

/-- Value of a nonempty all-digit character list. -/
def digitsVal? (cs : List Char) : Option ℕ :=
  if cs = [] then none
  else cs.foldl (fun acc c =>
    match acc with
    | none => none
    | some n => if c.isDigit then some (n * 10 + (c.toNat - 48)) else none)
    (some 0)

/-- Python `int(s)` on a string: optional surrounding whitespace, optional
sign, decimal digits.  (Restriction of Python `int`: underscores between
digits are not modelled; no claim exercises them.) -/
def pyInt? (s : String) : Option ℤ :=
  match (pyStrip s).data with
  | '-' :: rest => (digitsVal? rest).map (fun n => -(n : ℤ))
  | '+' :: rest => (digitsVal? rest).map (fun n => (n : ℤ))
  | cs => (digitsVal? cs).map (fun n => (n : ℤ))

/-- Fractional digits after a decimal point: `(value, number of digits)`. -/
def fracVal? (cs : List Char) : Option (ℕ × ℕ) :=
  if cs = [] then none
  else (digitsVal? cs).map (fun n => (n, cs.length))

/-- Unsigned decimal literal `digits`, `digits.digits`, `digits.` or
`.digits`, as accepted by Python `float`. -/
def decimalVal? (cs : List Char) : Option ℚ :=
  match cs.splitOn '.' with
  | [whole] => (digitsVal? whole).map (fun n => (n : ℚ))
  | [whole, frac] =>
    match digitsVal? whole, fracVal? frac with
    | some n, some (f, k) => some ((n : ℚ) + (f : ℚ) / 10 ^ k)
    | some n, none => if frac = [] then some ((n : ℚ)) else none
    | none, some (f, k) => if whole = [] then some ((f : ℚ) / 10 ^ k) else none
    | none, none => none
  | _ => none

/-- Python `float(s)` on a string (restriction: decimal literals with an
optional sign; exponents, `inf`/`nan` are not modelled — no claim exercises
them). -/
def pyFloatQ? (s : String) : Option ℚ :=
  match (pyStrip s).data with
  | '-' :: rest => (decimalVal? rest).map (fun q => -q)
  | '+' :: rest => decimalVal? rest
  | cs => decimalVal? cs

/-! ### `parsers/utils.py` — unit conversion -/

/-- `HALF_POINT_TO_PT = 0.5`. -/
def HALF_POINT_TO_PT : ℚ := 1/2

/-- `EMU_PER_CM = 360000.0`. -/
def EMU_PER_CM : ℚ := 360000

/-- `PT_TO_CM = 0.0352778`. -/
def PT_TO_CM : ℚ := 352778 / 10000000

/-- `half_point_to_pt(v)`: `round(float(v) * HALF_POINT_TO_PT, 2)`; the
`try/except` that swallows `TypeError` (v is `None`) and `ValueError`
(non-numeric) is modelled by the `Option` result. -/
def half_point_to_pt (v : Option String) : Option ℚ :=
  match v with
  | none => none
  | some s => (pyFloatQ? s).map (fun q => roundTo (q * HALF_POINT_TO_PT) 2)

/-- `emu_to_cm(v)`: `round(int(v) / EMU_PER_CM, 3)`; exceptions are modelled
by the `Option` result. -/
def emu_to_cm (v : Option String) : Option ℚ :=
  match v with
  | none => none
  | some s => (pyInt? s).map (fun n : ℤ => roundTo ((n : ℚ) / EMU_PER_CM) 3)

/-! ### XML element model -/

/-- An ElementTree element: tag (prefix form), attributes (prefix form keys),
optional text, children in document order. -/
inductive Xml where
  | elem (tag : String) (attrs : List (String × String)) (text : Option String)
         (children : List Xml)

namespace Xml

def tag : Xml → String
  | .elem t _ _ _ => t

def attrs : Xml → List (String × String)
  | .elem _ a _ _ => a

def text : Xml → Option String
  | .elem _ _ t _ => t

def children : Xml → List Xml
  | .elem _ _ _ c => c

/-- `elem.attrib.get(key)` — `None` when absent. -/
def attr (x : Xml) (k : String) : Option String :=
  (x.attrs.find? (fun p => p.1 == k)).map Prod.snd

/-- `elem.attrib.get(key, dflt)`. -/
def attrD (x : Xml) (k dflt : String) : String :=
  (x.attr k).getD dflt

/-- `key in elem.attrib`. -/
def hasAttr (x : Xml) (k : String) : Bool :=
  (x.attr k).isSome

mutual
/-- All proper descendants in document (pre-)order: what a `.//` path step
ranges over. -/
def descendants : Xml → List Xml
  | .elem _ _ _ cs => descendantsList cs

def descendantsList : List Xml → List Xml
  | [] => []
  | c :: rest => c :: (descendants c ++ descendantsList rest)
end

/-- `findall(".//tag")`. -/
def findAllDesc (x : Xml) (t : String) : List Xml :=
  x.descendants.filter (fun c => c.tag == t)

/-- `find(".//tag")`. -/
def findDesc (x : Xml) (t : String) : Option Xml :=
  (x.findAllDesc t).head?

/-- `findall("./tag")` / `findall("tag")` — matching direct children. -/
def childrenTagged (x : Xml) (t : String) : List Xml :=
  x.children.filter (fun c => c.tag == t)

/-- `find("tag")` — first matching direct child. -/
def findChild (x : Xml) (t : String) : Option Xml :=
  (x.childrenTagged t).head?

/-- `findall(".//t1/t2")`: children `t2` of each descendant `t1`, in document
order. -/
def findAllDescChild (x : Xml) (t1 t2 : String) : List Xml :=
  (x.findAllDesc t1).flatMap (fun y => y.childrenTagged t2)

/-- `find(".//t1/t2")`. -/
def findDescChild (x : Xml) (t1 t2 : String) : Option Xml :=
  (x.findAllDescChild t1 t2).head?

/-- `find(".//t1//t2")` exists: some descendant `t1` has a descendant `t2`. -/
def hasDescDesc (x : Xml) (t1 t2 : String) : Bool :=
  (x.findAllDesc t1).any (fun y => !(y.findAllDesc t2).isEmpty)

end Xml

/-! ### `parsers/paragraph_parser.py` — run styles -/

/-- The `rFonts` dict: keys `ascii`, `eastAsia`, `cs`, `hAnsi` (values may be
`None`). -/
structure Fonts where
  ascii : Option String
  eastAsia : Option String
  cs : Option String
  hAnsi : Option String
deriving DecidableEq, Repr

/-- The run-style dict built by `parse_run_props`.  A field is `none`/`false`
exactly when the corresponding dict key is absent.  `size_pt` is doubly
optional: the key is present whenever a `w:sz` element exists, with value
`half_point_to_pt(...)` which may itself be `None`. -/
structure RunStyle where
  styleName : Option String := none
  fonts : Option Fonts := none
  size_pt : Option (Option ℚ) := none
  bold : Bool := false
  italic : Bool := false
  color : Option String := none
  spacing_cm : Option ℚ := none
  background_color : Option String := none
  underline : Bool := false
  strike : Bool := false
deriving DecidableEq, Repr

/-- `parse_run_props(r)`. -/
def parse_run_props (r : Xml) : RunStyle :=
  match r.findChild "w:rPr" with
  | none => {}
  | some rPr =>
    { styleName :=
        (rPr.findChild "w:rStyle").bind (fun e =>
          match e.attr "w:val" with
          | some s => if s ≠ "" then some s else none
          | none => none)
      fonts :=
        (rPr.findChild "w:rFonts").map (fun e =>
          { ascii := e.attr "w:ascii", eastAsia := e.attr "w:eastAsia"
            cs := e.attr "w:cs", hAnsi := e.attr "w:hAnsi" })
      size_pt :=
        (rPr.findChild "w:sz").map (fun e => half_point_to_pt (e.attr "w:val"))
      bold := (rPr.findChild "w:b").isSome
      italic := (rPr.findChild "w:i").isSome
      color :=
        (rPr.findChild "w:color").bind (fun e =>
          match e.attr "w:val" with
          | some v => if v ≠ "" then some ("#" ++ v) else none
          | none => none)
      spacing_cm :=
        ((rPr.findChild "w:spacing").bind (fun e =>
          match e.attr "w:val" with
          | some v => if v ≠ "" then pyInt? v else none
          | none => none)).map (fun twips =>
            roundTo (((twips : ℚ) / 20) * PT_TO_CM) 3)
      background_color :=
        (rPr.findChild "w:shd").bind (fun e =>
          match e.attr "w:fill" with
          | some v => if v ≠ "" then some ("#" ++ v) else none
          | none => none)
      underline := (rPr.findChild "w:u").isSome
      strike := (rPr.findChild "w:strike").isSome }

/-- One entry of a paragraph's `runs` list.  (A run whose `w:t` carries no
text is stored by the source as `""` or `None`; both are falsy everywhere the
dict is read, so the model uses `""`.) -/
structure Run where
  text : String
  style : RunStyle
deriving DecidableEq, Repr

instance : Inhabited Run := ⟨⟨"", {}⟩⟩

/-- Concatenation of the texts of a run list, in order. -/
def runsText (rs : List Run) : String :=
  rs.foldr (fun r acc => r.text ++ acc) ""

/-- Python dict truthiness of the style: empty exactly when no key was set. -/
def RunStyle.isEmptyStyle (s : RunStyle) : Bool :=
  s == {}

/-- `styles_equal(style1, style2)` from `merge_runs`: both-empty is equal,
one-empty is unequal, otherwise the fixed attribute list is compared via
`dict.get` (so a `size_pt` key holding `None` compares like an absent key)
and the font dicts are compared for equality. -/
def styles_equal (s1 s2 : RunStyle) : Bool :=
  if s1.isEmptyStyle && s2.isEmptyStyle then true
  else if s1.isEmptyStyle || s2.isEmptyStyle then false
  else
    s1.styleName == s2.styleName && s1.bold == s2.bold && s1.italic == s2.italic
    && s1.underline == s2.underline && s1.strike == s2.strike
    && s1.size_pt.join == s2.size_pt.join && s1.color == s2.color
    && s1.background_color == s2.background_color
    && s1.spacing_cm == s2.spacing_cm && s1.fonts == s2.fonts

/-- Loop of `merge_runs`, accumulator kept reversed (head = `merged[-1]`). -/
def mergeRunsRev (acc : List Run) : List Run → List Run
  | [] => acc
  | r :: rest =>
    if r.text = "" then mergeRunsRev acc rest
    else
      match acc with
      | [] => mergeRunsRev [r] rest
      | last :: front =>
        if styles_equal r.style last.style then
          mergeRunsRev ({ text := last.text ++ r.text, style := last.style } :: front) rest
        else
          mergeRunsRev (r :: last :: front) rest

/-- `merge_runs(runs)` from `parsers/paragraph_parser.py`: drop empty-text
runs, merge a run into the last emitted run when `styles_equal`. -/
def merge_runs (runs : List Run) : List Run :=
  (mergeRunsRev [] runs).reverse

/-! ### `parsers/doc_parser.py` — style key and second merge pass -/

/-- Decimal rendering of a nonnegative rational whose denominator divides a
power of ten, the way Python `str` prints the corresponding float (`12.0`,
`12.5`, `0.353`).  All values reaching it come from `roundTo`/`÷100`, whose
denominators divide `10^3`. -/
def qToPyStrNN (q : ℚ) : String :=
  let k := ((List.range 31).find? (fun k => (q * (10:ℚ) ^ k).den == 1)).getD 0
  let m := (q * (10:ℚ) ^ k).num.toNat
  if k = 0 then toString m ++ ".0"
  else
    let f := toString (m % 10 ^ k)
    toString (m / 10 ^ k) ++ "." ++
      (String.mk (List.replicate (k - f.length) '0') ++ f)

/-- Python `str` of a float value stored in the style dict. -/
def qToPyStr (q : ℚ) : String :=
  if q < 0 then "-" ++ qToPyStrNN (-q) else qToPyStrNN q

/-- Python `str` of an optional string (absent prints as `None`). -/
def pyOptStr (v : Option String) : String :=
  match v with
  | none => "None"
  | some s => s

/-- Python `str` of an optional float. -/
def pyOptQStr (v : Option ℚ) : String :=
  match v with
  | none => "None"
  | some q => qToPyStr q

/-- `create_style_key(style)` from `DocParser._merge_runs_by_style`: `""` for
an empty dict, otherwise `"attr:value"` parts for the present keys among
`bold, italic, underline, strike, size_pt, color, background_color,
spacing_cm` (note: `styleName` is NOT part of this key), then the font dict
as `"fonts:k:v,…"` over sorted keys, all joined with `"|"`. -/
def create_style_key (s : RunStyle) : String :=
  if s.isEmptyStyle then ""
  else
    let parts : List String :=
      (if s.bold then ["bold:True"] else [])
      ++ (if s.italic then ["italic:True"] else [])
      ++ (if s.underline then ["underline:True"] else [])
      ++ (if s.strike then ["strike:True"] else [])
      ++ (match s.size_pt with
          | none => []
          | some v => ["size_pt:" ++ pyOptQStr v])
      ++ (match s.color with
          | none => []
          | some c => ["color:" ++ c])
      ++ (match s.background_color with
          | none => []
          | some c => ["background_color:" ++ c])
      ++ (match s.spacing_cm with
          | none => []
          | some v => ["spacing_cm:" ++ qToPyStr v])
      ++ (match s.fonts with
          | none => []
          | some f =>
            ["fonts:" ++ String.intercalate ","
              ["ascii:" ++ pyOptStr f.ascii, "cs:" ++ pyOptStr f.cs,
               "eastAsia:" ++ pyOptStr f.eastAsia, "hAnsi:" ++ pyOptStr f.hAnsi]])
    String.intercalate "|" parts

/-- Loop of `_merge_runs_by_style`: `cur` is `current_group`, `acc` the
emitted groups reversed.  A run merges into `cur` only when its style key
matches and its text is nonempty; otherwise `cur` is flushed (if it holds
text) and the run starts a new group. -/
def mergeByStyleAux (cur : Run) (acc : List Run) : List Run → List Run
  | [] => if cur.text = "" then acc else cur :: acc
  | r :: rest =>
    if create_style_key r.style == create_style_key cur.style && r.text ≠ "" then
      mergeByStyleAux { text := cur.text ++ r.text, style := cur.style } acc rest
    else
      mergeByStyleAux r (if cur.text = "" then acc else cur :: acc) rest

/-- `DocParser._merge_runs_by_style(runs)`. -/
def merge_runs_by_style (runs : List Run) : List Run :=
  match runs with
  | [] => []
  | r :: rest => (mergeByStyleAux r [] rest).reverse

/-! ### `parsers/paragraph_parser.py` — paragraphs -/

/-- `extract_paragraph_text(p)`: join the truthy texts of ALL descendant
`w:t` nodes, then `strip()`. -/
def extract_paragraph_text (p : Xml) : String :=
  pyStrip (String.join (((p.findAllDesc "w:t").filterMap Xml.text).filter
    (fun t => t ≠ "")))

/-- The WordArt-carrier test at the top of the `parse_paragraphs` loop:
`.//w14:textEffect`, `.//wps:wsp//w14:textEffect`,
`.//mc:AlternateContent//w14:textEffect`,
`.//a:graphic/a:graphicData/a:txBody/a:bodyPr/a:prstTxWarp`, or
`.//v:textpath`. -/
def hasWordArtMarker (p : Xml) : Bool :=
  !(p.findAllDesc "w14:textEffect").isEmpty
  || p.hasDescDesc "wps:wsp" "w14:textEffect"
  || p.hasDescDesc "mc:AlternateContent" "w14:textEffect"
  || !((((((p.findAllDesc "a:graphic").flatMap
        (fun g => g.childrenTagged "a:graphicData")).flatMap
        (fun g => g.childrenTagged "a:txBody")).flatMap
        (fun g => g.childrenTagged "a:bodyPr")).flatMap
        (fun g => g.childrenTagged "a:prstTxWarp"))).isEmpty
  || !(p.findAllDesc "v:textpath").isEmpty

/-- The paragraph dict appended to `summary["段落"]` (keys `來源`, `編號`,
`文字`, `runs`; the `屬性` key from `parse_paragraph_props` is not modelled —
no claim refers to paragraph-level properties). -/
structure Paragraph where
  source : String
  index : ℕ
  text : String
  runs : List Run
deriving DecidableEq, Repr

/-- The `runs` list built inside the `parse_paragraphs` loop before
`merge_runs`: one run per direct `w:r` child, text from its direct `w:t`
child (`None` texts modelled as `""`, see `Run`). -/
def rawRuns (p : Xml) : List Run :=
  (p.childrenTagged "w:r").map (fun r =>
    { text := ((r.findChild "w:t").bind Xml.text).getD ""
      style := parse_run_props r })

/-- Body of the `parse_paragraphs` loop for one `w:p` node with 1-based
index `idx`: text from all descendant `w:t`, then `merge_runs` over the raw
runs. -/
def buildParagraph (partName : String) (idx : ℕ) (p : Xml) : Paragraph :=
  { source := partName
    index := idx
    text := extract_paragraph_text p
    runs := merge_runs (rawRuns p) }

/-- The `for idx, p in enumerate(root.findall(".//w:p"), 1)` loop:
`i` is the number of paragraph nodes already enumerated. -/
def parseParagraphsAux (partName : String) : ℕ → List Xml → List Paragraph
  | _, [] => []
  | i, p :: rest =>
    if hasWordArtMarker p then parseParagraphsAux partName (i + 1) rest
    else buildParagraph partName (i + 1) p :: parseParagraphsAux partName (i + 1) rest

/-- `parse_paragraphs(root, part_name, out)` — the list it appends to
`out["段落"]`. -/
def parse_paragraphs (root : Xml) (partName : String) : List Paragraph :=
  parseParagraphsAux partName 0 (root.findAllDesc "w:p")

/-! ### `parsers/drawing_parser.py` — WordArt elements -/

/-- The `"style"` dict read by `merge_across_sources` from a WordArt element
(`wa.get("style", {})`).  The elements built by `DrawingParser` carry no
`style` key, which reads as the empty default.  (`utils.parse_wordart`, the
only producer of a filled `style`, is reachable only through
`vml_parser.VMLParser`, which nothing in the pipeline calls.) -/
structure WAStyle where
  fonts : List (String × Option String) := []
  size_pt : Option ℚ := none
  fill_color : Option String := none
  kern_pt : Option ℚ := none
  outline_color : Option String := none
  background_color : Option String := none
deriving DecidableEq, Repr

/-- A dict appended to `summary["WordArt"]` (keys `來源`, `文字`, `類型`).
The formatting payload (`字型`, `大小`, `顏色`, `幾何`, `填色`, `輪廓`,
`陰影`, `Glow`, `Reflection`) is not modelled — no claim refers to it. -/
structure WordArtElement where
  source : String
  text : Option String
  typ : String
  style : WAStyle := {}
deriving DecidableEq, Repr

/-- Text joined from all `w:t` descendants of a `w:txbxContent` node. -/
def textOfTxbx (txbx : Xml) : String :=
  String.join (((txbx.findAllDesc "w:t").filterMap Xml.text).filter
    (fun t => t ≠ ""))

/-- `DrawingParser._parse_text_effect(te, part_name)`: always returns an
element; its `文字` is `None`. -/
def parseTextEffect (partName : String) (te : Xml) : WordArtElement :=
  { source := partName
    text := none
    typ := "WordArt-Effect:" ++ pyOptStr (te.attr "w14:val") }

/-- `DrawingParser._parse_w_drawing(shape, part_name)`: an element only when
a `.//wps:txbx/w:txbxContent` exists and its text strips to nonempty. -/
def parseWDrawing (partName : String) (shape : Xml) : Option WordArtElement :=
  match shape.findDescChild "wps:txbx" "w:txbxContent" with
  | none => none
  | some txbx =>
    let text := textOfTxbx txbx
    if pyStrip text ≠ "" then
      some { source := partName, text := some (pyStrip text), typ := "TextBox" }
    else none

/-- `DrawingParser._parse_vml_wordart(vshape, part_name)`: an element exactly
when a `.//v:textpath` exists; text comes from its `string` attribute. -/
def parseVmlWordart (partName : String) (vshape : Xml) : Option WordArtElement :=
  match vshape.findDesc "v:textpath" with
  | none => none
  | some tp =>
    some { source := partName, text := some (tp.attrD "string" ""),
           typ := "VML-WordArt" }

/-- `DrawingParser.parse(root, part_name, out)` — the list it appends to
`out["WordArt"]`: all `w14:textEffect` nodes (their dict is always truthy),
then `w:drawing` nodes that yield an element, then `v:shape` nodes that
contain a `v:textpath`. -/
def drawingParse (root : Xml) (partName : String) : List WordArtElement :=
  (root.findAllDesc "w14:textEffect").map (parseTextEffect partName)
  ++ (root.findAllDesc "w:drawing").filterMap (parseWDrawing partName)
  ++ (root.findAllDesc "v:shape").filterMap (parseVmlWordart partName)

/-! ### `parsers/utils.py` — cross-source style merger -/

/-- A value of the `字距` set: paragraph `spacing_cm` values arrive as
numbers, WordArt `kern` values could arrive as raw strings via `kern_raw`
(never added to the set by the current code, but `normalize_spacing`
handles both shapes). -/
abbrev SpVal := ℚ ⊕ String

/-- One value of the `para_map` dict built by `merge_across_sources`
(mutable sets modelled as `Finset`, matching Python `set` semantics: no
order, no duplicates).  The `幾何` and `段落屬性` fields (overwritten, not
aggregated) are not modelled — no claim refers to them. -/
structure MergedEntry where
  text : String
  sources : Finset String
  fonts : Finset String
  sizes : Finset ℚ
  colors : Finset String
  isWordArt : Bool
  spacings : Finset SpVal
  outlineColors : Finset String
  backgroundColors : Finset String
deriving DecidableEq

/-- A fresh `para_map` value with empty sets. -/
def freshEntry (txt : String) (isWA : Bool) : MergedEntry :=
  ⟨txt, ∅, ∅, ∅, ∅, isWA, ∅, ∅, ∅⟩

/-- `para_map[txt]` insert-or-mutate: Python dict semantics (first insertion
fixes the position, later occurrences mutate in place). -/
def alistSetdefaultThen (k : String) (fresh : MergedEntry)
    (f : MergedEntry → MergedEntry) :
    List (String × MergedEntry) → List (String × MergedEntry)
  | [] => [(k, f fresh)]
  | (k0, e) :: rest =>
    if k0 = k then (k0, f e) :: rest
    else (k0, e) :: alistSetdefaultThen k fresh f rest

/-- The per-run aggregation of the paragraph branch of
`merge_across_sources`: font values, truthy `size_pt` and `color`, and the
`spacing_cm` / `background_color` keys (presence-tested only) are unioned
into the entry's sets. -/
def addRunFacts (e : MergedEntry) (r : Run) : MergedEntry :=
  let st := r.style
  let e1 :=
    match st.fonts with
    | none => e
    | some f =>
      { e with fonts := ([f.ascii, f.eastAsia, f.cs, f.hAnsi].foldl
          (fun acc v =>
            match v with
            | some s => if s ≠ "" then insert s acc else acc
            | none => acc) e.fonts) }
  let e2 :=
    match st.size_pt with
    | some (some q) => if q ≠ 0 then { e1 with sizes := insert q e1.sizes } else e1
    | _ => e1
  let e3 :=
    match st.color with
    | some c => if c ≠ "" then { e2 with colors := insert c e2.colors } else e2
    | none => e2
  let e4 :=
    match st.spacing_cm with
    | some q => { e3 with spacings := insert (Sum.inl q) e3.spacings }
    | none => e3
  match st.background_color with
  | some c => { e4 with backgroundColors := insert c e4.backgroundColors }
  | none => e4

/-- The paragraph loop body of `merge_across_sources`: skip untrimmed-empty
text, otherwise create-or-extend the entry keyed by the trimmed text. -/
def paraStep (m : List (String × MergedEntry)) (p : Paragraph) :
    List (String × MergedEntry) :=
  let txt := pyStrip p.text
  if txt = "" then m
  else
    alistSetdefaultThen txt (freshEntry txt false)
      (fun e => p.runs.foldl addRunFacts { e with sources := insert p.source e.sources }) m

/-- The WordArt loop body of `merge_across_sources`.  `wa.get("文字", "")`
returns the stored `None` for a `w14:textEffect` element, and `.strip()` on
it raises `AttributeError`, modelled as `none`. -/
def waStep (m : List (String × MergedEntry)) (wa : WordArtElement) :
    Option (List (String × MergedEntry)) :=
  match wa.text with
  | none => none
  | some t0 =>
    let txt := pyStrip t0
    if txt = "" then some m
    else
      some (alistSetdefaultThen txt (freshEntry txt true)
        (fun e =>
          let e0 := { e with sources := insert wa.source e.sources,
                             isWordArt := true }
          let st := wa.style
          let e1 :=
            if st.fonts ≠ [] then
              { e0 with fonts := ((st.fonts.map Prod.snd).foldl
                  (fun acc v =>
                    match v with
                    | some s => if s ≠ "" then insert s acc else acc
                    | none => acc) e0.fonts) }
            else e0
          let e2 :=
            match st.size_pt with
            | some q => if q ≠ 0 then { e1 with sizes := insert q e1.sizes } else e1
            | none => e1
          let e3 :=
            match st.fill_color with
            | some c => if c ≠ "" then { e2 with colors := insert c e2.colors } else e2
            | none => e2
          let e4 :=
            match st.kern_pt with
            | some q => { e3 with spacings := insert (Sum.inl q) e3.spacings }
            | none => e3
          let e5 :=
            match st.outline_color with
            | some c =>
              if c ≠ "" then { e4 with outlineColors := insert c e4.outlineColors } else e4
            | none => e4
          match st.background_color with
          | some c =>
            if c ≠ "" then { e5 with backgroundColors := insert c e5.backgroundColors } else e5
          | none => e5) m)

/-- The `para_map` dict after both aggregation loops of
`merge_across_sources` (an association list in insertion order); `none`
models the uncaught `AttributeError` on a `文字 = None` WordArt element. -/
def mergeEntries (paras : List Paragraph) (was : List WordArtElement) :
    Option (List (String × MergedEntry)) :=
  was.foldlM waStep (paras.foldl paraStep [])

/-- `normalize_spacing` on one value: numeric strings are `int(v)/100.0`,
everything else passes through. -/
def normalizeSpacingVal (v : SpVal) : SpVal :=
  match v with
  | Sum.inl q => Sum.inl q
  | Sum.inr s =>
    match pyInt? s with
    | some n => Sum.inl ((n : ℚ) / 100)
    | none => Sum.inr s

/-- `normalize_spacing(values)`. -/
def normalize_spacing (values : List SpVal) : List SpVal :=
  values.map normalizeSpacingVal

/-- One element of the output list `"段落完整文字"` (the `幾何` and
`段落屬性` keys are not modelled — no claim refers to them). -/
structure OutEntry where
  text : String
  sources : List String
  fonts : List String
  sizes : List ℚ
  colors : List String
  isWordArt : Bool
  spacings : List SpVal
  outlineColors : List String
  backgroundColors : List String
deriving DecidableEq, Repr

/-- `list(...)` of each aggregated set plus the `字距` normalization pass.
Python fixes no iteration order on a `set` of strings across interpreter
processes (the string hash seed varies), so the conversions to lists are
parameterized by enumeration functions `eS`/`eQ`/`eP`, one per element
type — a fixed choice models one interpreter environment. -/
def renderEntry (eS : Finset String → List String)
    (eQ : Finset ℚ → List ℚ) (eP : Finset SpVal → List SpVal)
    (e : MergedEntry) : OutEntry :=
  { text := e.text
    sources := eS e.sources
    fonts := eS e.fonts
    sizes := eQ e.sizes
    colors := eS e.colors
    isWordArt := e.isWordArt
    spacings := normalize_spacing (eP e.spacings)
    outlineColors := eS e.outlineColors
    backgroundColors := eS e.backgroundColors }

/-- `merge_across_sources(summary)` — the `"段落完整文字"` list (entries in
`para_map` insertion order). -/
def merge_across_sources (eS : Finset String → List String)
    (eQ : Finset ℚ → List ℚ) (eP : Finset SpVal → List SpVal)
    (paras : List Paragraph) (was : List WordArtElement) :
    Option (List OutEntry) :=
  (mergeEntries paras was).map (fun m => m.map (fun kv => renderEntry eS eQ eP kv.2))

/-! ### `parsers/table_parser.py` -/

/-- The table run-style font dict (`ascii`/`hAnsi` only). -/
structure TFonts where
  ascii : Option String
  hAnsi : Option String
deriving DecidableEq, Repr

/-- `TableParser._parse_run_style` result. -/
structure TCellRunStyle where
  fonts : Option TFonts := none
  size_pt : Option (Option ℚ) := none
  bold : Bool := false
  italic : Bool := false
  color : Option String := none
deriving DecidableEq, Repr

/-- `TableParser._parse_run_style(run)` (all lookups are `.//` searches). -/
def parseTCellRunStyle (run : Xml) : TCellRunStyle :=
  match run.findDesc "w:rPr" with
  | none => {}
  | some rPr =>
    { fonts := (rPr.findDesc "w:rFonts").map (fun e =>
        { ascii := e.attr "w:ascii", hAnsi := e.attr "w:hAnsi" })
      size_pt := (rPr.findDesc "w:sz").map (fun e => half_point_to_pt (e.attr "w:val"))
      bold := (rPr.findDesc "w:b").isSome
      italic := (rPr.findDesc "w:i").isSome
      color := (rPr.findDesc "w:color").bind (fun e =>
        match e.attr "w:val" with
        | some v => if v ≠ "" then some ("#" ++ v) else none
        | none => none) }

/-- One entry of a cell's `樣式` list. -/
structure TCRun where
  text : String
  style : TCellRunStyle
deriving DecidableEq, Repr

/-- `TableParser._parse_cell_properties` result.  `width_pt` (`寬度_pt`) is
doubly optional: the key is set whenever `w:tcW` has a truthy `w:w` and
`w:type == "dxa"`, with value `half_point_to_pt(width_val)` which may be
`None`. -/
structure CellProps where
  width_pt : Option (Option ℚ) := none
  vAlign : Option (Option String) := none
  background : Option String := none
  vMerge : Option String := none
  hMerge : Option String := none
deriving DecidableEq, Repr

/-- `TableParser._parse_cell_properties(cell)`.  Note: the `"dxa"` width (a
twips value) is converted with `half_point_to_pt`, i.e. multiplied by 0.5. -/
def parse_cell_properties (cell : Xml) : CellProps :=
  match cell.findDesc "w:tcPr" with
  | none => {}
  | some tcPr =>
    { width_pt :=
        match tcPr.findDesc "w:tcW" with
        | none => none
        | some tcW =>
          match tcW.attr "w:w" with
          | some w =>
            if w ≠ "" && tcW.attr "w:type" == some "dxa" then
              some (half_point_to_pt (some w))
            else none
          | none => none
      vAlign := (tcPr.findDesc "w:vAlign").map (fun e => e.attr "w:val")
      background := (tcPr.findDesc "w:shd").bind (fun e =>
        match e.attr "w:fill" with
        | some v => if v ≠ "" then some ("#" ++ v) else none
        | none => none)
      vMerge := (tcPr.findDesc "w:vMerge").map (fun e => e.attrD "w:val" "continue")
      hMerge := (tcPr.findDesc "w:hMerge").map (fun e => e.attrD "w:val" "continue") }

/-- One cell dict built by `TableParser._parse_cell_content`. -/
structure TableCell where
  row : ℕ
  col : ℕ
  text : String
  textLen : ℕ
  runs : List TCRun
  props : CellProps
  isEmpty : Bool
deriving DecidableEq, Repr

/-- `TableParser._parse_cell_content(cell, row_idx, cell_idx)` (0-based
indices; the dict stores them 1-based). -/
def parse_cell_content (cell : Xml) (rowIdx cellIdx : ℕ) : TableCell :=
  let paras := cell.findAllDesc "w:p"
  let rawText := paras.foldl (fun acc para =>
    acc ++ String.join (((para.findAllDesc "w:t").filterMap Xml.text).filter
      (fun t => t ≠ "")) ++ "\n") ""
  let cellText := pyStrip rawText
  let runs := paras.flatMap (fun para =>
    (para.findAllDesc "w:r").filterMap (fun run =>
      let runText := ((run.findDesc "w:t").bind Xml.text).getD ""
      if runText ≠ "" then
        some { text := runText, style := parseTCellRunStyle run }
      else none))
  { row := rowIdx + 1, col := cellIdx + 1
    text := cellText
    textLen := cellText.length
    runs := runs
    props := parse_cell_properties cell
    isEmpty := (pyStrip cellText == "") }

/-- One edge record of `TableParser._parse_borders`. -/
structure Border where
  color : String
  size_pt : Option ℚ
  style : String
deriving DecidableEq, Repr

/-- `TableParser._parse_borders(borders_elem)`, keys in the fixed
`border_types` order. -/
def parse_borders (be : Xml) : List (String × Border) :=
  ["top", "left", "bottom", "right", "insideH", "insideV"].filterMap
    (fun t =>
      match be.findDesc ("w:" ++ t) with
      | none => none
      | some b =>
        some (t, { color := "#" ++ b.attrD "w:color" "000000"
                   size_pt := half_point_to_pt (b.attr "w:sz")
                   style := b.attrD "w:val" "single" }))

/-- `TableParser._parse_table_properties` result. -/
structure TableProps where
  widthPct : Option ℚ := none
  align : Option (Option String) := none
  borders : Option (List (String × Border)) := none
  cellSpacing : Option (Option ℚ) := none
deriving DecidableEq, Repr

/-- `TableParser._parse_table_properties(tbl)`. -/
def parse_table_properties (tbl : Xml) : TableProps :=
  match tbl.findDesc "w:tblPr" with
  | none => {}
  | some tblPr =>
    { widthPct :=
        match tblPr.findDesc "w:tblW" with
        | none => none
        | some tblW =>
          match tblW.attr "w:w" with
          | some w =>
            if w ≠ "" && tblW.attr "w:type" == some "pct" then
              (pyInt? w).map (fun n => (n : ℚ) / 50)
            else none
          | none => none
      align := (tblPr.findDesc "w:jc").map (fun e => e.attr "w:val")
      borders := (tblPr.findDesc "w:tblBorders").map parse_borders
      cellSpacing :=
        (tblPr.findDesc "w:tblCellSpacing").bind (fun e =>
          match e.attr "w:w" with
          | some v => if v ≠ "" then some (half_point_to_pt (some v)) else none
          | none => none) }

/-- `TableParser._parse_table_style` result. -/
structure TableStyleInfo where
  styleName : Option (Option String) := none
  condFmt : Option (Bool × Bool × Bool × Bool) := none
deriving DecidableEq, Repr

/-- `TableParser._parse_table_style(tbl)`. -/
def parse_table_style (tbl : Xml) : TableStyleInfo :=
  { styleName := (tbl.findDescChild "w:tblPr" "w:tblStyle").map (fun e => e.attr "w:val")
    condFmt := (tbl.findDescChild "w:tblPr" "w:tblLook").map (fun e =>
      (e.attrD "w:firstRow" "0" == "1", e.attrD "w:lastRow" "0" == "1",
       e.attrD "w:firstColumn" "0" == "1", e.attrD "w:lastColumn" "0" == "1")) }

/-- `TableParser._analyze_table_content` result. -/
structure ContentStats where
  total : ℕ
  empty : ℕ
  filled : ℕ
  avgLen : ℚ
  fillRatio : ℚ
deriving DecidableEq, Repr

/-- `TableParser._analyze_table_content(table_data)`. -/
def analyze_table_content (data : List (List TableCell)) : ContentStats :=
  let cells := data.flatten
  let total := cells.length
  let empties := (cells.filter (fun c => c.isEmpty)).length
  let filledCells := cells.filter (fun c => !c.isEmpty)
  let filled := filledCells.length
  let totalLen : ℕ := filledCells.foldl (fun acc c => acc + c.textLen) 0
  { total := total, empty := empties, filled := filled
    avgLen := if filled > 0 then roundTo ((totalLen : ℚ) / filled) 2 else 0
    fillRatio := if total > 0 then roundTo (((filled : ℚ) / total) * 100) 2 else 0 }

/-- `TableParser._find_special_elements(tbl)`. -/
def find_special_elements (tbl : Xml) : List String :=
  (if (tbl.findDesc "w:drawing").isSome then ["圖片"] else [])
  ++ (if (tbl.findDesc "w14:textEffect").isSome || (tbl.findDesc "v:textpath").isSome
      then ["WordArt"] else [])
  ++ (if (tbl.findAllDesc "w:shd").any (fun e => e.hasAttr "w:fill")
      then ["背景顏色"] else [])

/-- One dict of the `表格` list. -/
structure Table where
  source : String
  index : ℕ
  rowCount : ℕ
  colCount : ℕ
  totalCells : ℕ
  data : List (List TableCell)
  props : TableProps
  styleInfo : TableStyleInfo
  stats : ContentStats
  specials : List String
deriving DecidableEq, Repr

/-- `TableParser._parse_single_table(tbl, part_name, table_index)`: `None`
when the table has no rows; column count is the `w:tc` count of the first
row only. -/
def parse_single_table (tbl : Xml) (partName : String) (tableIndex : ℕ) :
    Option Table :=
  match tbl.findAllDesc "w:tr" with
  | [] => none
  | r0 :: rest =>
    let rows := r0 :: rest
    let colCount := (r0.findAllDesc "w:tc").length
    let data := rows.mapIdx (fun ri row =>
      (row.findAllDesc "w:tc").mapIdx (fun ci cell => parse_cell_content cell ri ci))
    some { source := partName, index := tableIndex
           rowCount := rows.length, colCount := colCount
           totalCells := rows.length * colCount
           data := data
           props := parse_table_properties tbl
           styleInfo := parse_table_style tbl
           stats := analyze_table_content data
           specials := find_special_elements tbl }

/-- `TableParser.parse_tables(root, part_name)` (the per-table `try/except`
never fires: every step of the model is total). -/
def parse_tables (root : Xml) (partName : String) : List Table :=
  ((root.findAllDesc "w:tbl").mapIdx (fun i tbl =>
    parse_single_table tbl partName (i + 1))).filterMap id

/-! ### `parsers/image_parser.py` -/

/-- Python dict assignment with overwrite (first assignment fixes the
position). -/
def dictInsert (m : List (String × String)) (k v : String) :
    List (String × String) :=
  if (m.find? (fun p => p.1 == k)).isSome then
    m.map (fun p => if p.1 == k then (p.1, v) else p)
  else m ++ [(k, v)]

/-- Python dict lookup (last assignment wins — positions are unique here by
construction of `dictInsert`). -/
def dictLookup (m : List (String × String)) (k : String) : Option String :=
  (m.find? (fun p => p.1 == k)).map Prod.snd

/-- `dict(s.split(":") for s in v.split(";") if ":" in s)`: raises
(`none`) when some `;`-segment contains more than one `:` (the pair list is
then not of length 2). -/
def parsePairs (v : String) : Option (List (String × String)) :=
  (splitOnChar v ';').foldlM (fun m s =>
    match splitOnChar s ':' with
    | [_] => some m
    | [a, b] => some (dictInsert m a b)
    | _ => none) []

/-- `ImageParser._extract_vml_geometry` result. -/
structure VGeom where
  width : Option String := none
  height : Option String := none
  coordsize : Option String := none
deriving DecidableEq, Repr

/-- `ImageParser._extract_vml_geometry(shape)`; `none` models the
`ValueError` of `dict(...)` on a malformed `style` attribute. -/
def extractVmlGeometry (shape : Xml) : Option VGeom :=
  let coord := shape.attrD "coordsize" ""
  let coordOpt := if coord ≠ "" then some coord else none
  let sa := shape.attrD "style" ""
  if sa = "" then some { coordsize := coordOpt }
  else
    (parsePairs sa).map (fun d =>
      { width := dictLookup d "width", height := dictLookup d "height"
        coordsize := coordOpt })

/-- `ImageParser._parse_vml_style(shape)`; `none` models the same
`dict(...)` failure. -/
def parseVmlStyle (shape : Xml) : Option (List (String × String)) :=
  let sa := shape.attrD "style" ""
  (if sa = "" then some [] else parsePairs sa).map (fun d =>
    let d1 := match shape.attr "fillcolor" with
      | some c => if c ≠ "" then dictInsert d "填充顏色" c else d
      | none => d
    let d2 := match shape.attr "strokecolor" with
      | some c => if c ≠ "" then dictInsert d1 "邊框顏色" c else d1
      | none => d1
    match shape.attr "strokeweight" with
    | some c => if c ≠ "" then dictInsert d2 "邊框粗細" c else d2
    | none => d2)

/-- `ImageParser._extract_vml_special_properties(shape)`. -/
def extractVmlSpecials (shape : Xml) : List String :=
  (if shape.hasAttr "rotation" then ["VML旋轉"] else [])
  ++ (if shape.hasAttr "fill" then ["VML填充"] else [])
  ++ (if shape.hasAttr "stroke" then ["VML邊框"] else [])

/-- One dict of the `圖片` list.  Only the VML branch ever completes (see
`parseDrawingElement`), so the DrawingML-only payload is not modelled. -/
structure ImageInfo where
  source : String
  index : ℕ
  typ : String
  relId : String
  geom : VGeom
  style : List (String × String)
  version : String
  specials : List String
deriving DecidableEq, Repr

/-- `ImageParser._parse_drawing_element(drawing, part_name, img_index)`.
When a `a:blip` with a truthy `r:embed` exists, the source proceeds to
`_parse_image_properties`, whose first statement
`drawing.find(".//pic:pic", NS)` raises `SyntaxError` because the prefix
`pic` is absent from the `NS` map of `parsers/utils.py`; the geometry
extraction evaluated before it is side-effect free.  So the branch either
returns `None` or raises — it never yields an image. -/
def parseDrawingElement (drawing : Xml) : Except Unit (Option ImageInfo) :=
  match drawing.findDesc "a:blip" with
  | none => Except.ok none
  | some blip =>
    if (blip.attr "r:embed").getD "" = "" then Except.ok none
    else Except.error ()

/-- `ImageParser._parse_vml_element(pict, part_name, img_index)`. -/
def parseVmlElement (partName : String) (imgIndex : ℕ) (pict : Xml) :
    Except Unit (Option ImageInfo) :=
  match pict.findDesc "v:shape" with
  | none => Except.ok none
  | some shape =>
    match shape.findDesc "v:imagedata" with
    | none => Except.ok none
    | some idata =>
      if (idata.attr "r:id").getD "" = "" then Except.ok none
      else
        match extractVmlGeometry shape with
        | none => Except.error ()
        | some geom =>
          match parseVmlStyle shape with
          | none => Except.error ()
          | some style =>
            Except.ok (some
              { source := partName, index := imgIndex, typ := "VML"
                relId := (idata.attr "r:id").getD ""
                geom := geom, style := style
                version := "Legacy (2003-2007)"
                specials := extractVmlSpecials shape })

/-- `ImageParser.parse_images(root, part_name)`: the DrawingML loop (whose
per-element `try/except` swallows every raise, see `parseDrawingElement`),
then the VML loop enumerated from `len(images) + 1`. -/
def parse_images (root : Xml) (partName : String) : List ImageInfo :=
  let imgs1 := ((root.findAllDesc "w:drawing").map (fun d =>
    match parseDrawingElement d with
    | Except.ok r => r
    | Except.error _ => none)).filterMap id
  imgs1 ++ (((root.findAllDesc "w:pict").mapIdx (fun i p =>
    match parseVmlElement partName (imgs1.length + i + 1) p with
    | Except.ok r => r
    | Except.error _ => none)).filterMap id)

/-! ### `parsers/doc_parser.py` — the assembler -/

/-- The summary dict.  `tables`/`images` are `none` while the `表格`/`圖片`
keys are absent (each part that finds tables/images overwrites the key). -/
structure Summary where
  paragraphs : List Paragraph
  wordArt : List WordArtElement
  notices : List String
  tables : Option (List Table) := none
  images : Option (List ImageInfo) := none
  merged : List OutEntry := []
deriving DecidableEq, Repr

/-- The entry filter of `DocParser.summarize`: under `word/`, `.xml`
extension, not a relationship descriptor. -/
def eligibleName (n : String) : Bool :=
  strStarts n "word/" && strEnds n ".xml" && !(containsSub n "/_rels/")

/-- `parse_all_tables_in_document(root, name, out)`: overwrites `out["表格"]`
and appends a notice when tables were found. -/
def parseAllTablesInDocument (root : Xml) (name : String) (s : Summary) : Summary :=
  let ts := parse_tables root name
  if ts ≠ [] then
    { s with tables := some ts
             notices := s.notices ++ ["檢測到 " ++ toString ts.length ++ " 個表格"] }
  else s

/-- `parse_all_images_in_document(root, name, out)`. -/
def parseAllImagesInDocument (root : Xml) (name : String) (s : Summary) : Summary :=
  let imgs := parse_images root name
  if imgs ≠ [] then
    { s with images := some imgs
             notices := s.notices ++ ["檢測到 " ++ toString imgs.length ++ " 張圖片"] }
  else s

/-- One iteration of the `for name in z.namelist()` loop of
`DocParser.summarize`.  An archive entry is modelled as its name together
with the outcome of `get_xml` on its bytes (`none` = the bytes do not parse
as XML; `get_xml` swallows the parse error and returns `None`). -/
def processEntry (s : Summary) (name : String) (root : Option Xml) : Summary :=
  if eligibleName name then
    match root with
    | none => s
    | some x =>
      let s1 := { s with paragraphs := s.paragraphs ++ parse_paragraphs x name }
      let s2 := { s1 with wordArt := s1.wordArt ++ drawingParse x name }
      parseAllImagesInDocument x name (parseAllTablesInDocument x name s2)
  else s

/-- `DocParser._merge_similar_runs` on one paragraph dict. -/
def applyMergePass (p : Paragraph) : Paragraph :=
  if p.runs = [] then p else { p with runs := merge_runs_by_style p.runs }

/-- The enumeration-independent part of `DocParser.summarize`: process the
archive entries in order, then run the second merge pass
(`_merge_similar_runs`) over the accumulated paragraphs. -/
def summarizeBase (entries : List (String × Option Xml)) : Summary :=
  let s0 := entries.foldl (fun s nr => processEntry s nr.1 nr.2)
    { paragraphs := [], wordArt := [], notices := [] }
  { s0 with paragraphs := s0.paragraphs.map applyMergePass }

/-- `DocParser.summarize`: process the archive entries in order, run the
second merge pass, then `merge_across_sources`.  `none` models the uncaught
exception path (re-raised as `文件解析錯誤`); the zip-integrity check
(`InvalidArchive`) is upstream of this model, which starts from the entry
list. -/
def summarize (eS : Finset String → List String) (eQ : Finset ℚ → List ℚ)
    (eP : Finset SpVal → List SpVal)
    (entries : List (String × Option Xml)) : Option Summary :=
  let s1 := summarizeBase entries
  (merge_across_sources eS eQ eP s1.paragraphs s1.wordArt).map
    (fun m => { s1 with merged := m })

/-! ### `analysis/document_analyzer.py` — complexity heuristic -/

/-- The `elements_count` expression of `DocumentAnalyzer._assess_complexity`,
with Python's conditional-expression parse made explicit:
`(len(段落) + len(WordArt) + len(圖片)) if "圖片" in data
 else ((0 + len(表格)) if "表格" in data else 0)`. -/
def elementsCount (d : Summary) : ℕ :=
  match d.images with
  | some imgs => d.paragraphs.length + d.wordArt.length + imgs.length
  | none =>
    match d.tables with
    | some ts => 0 + ts.length
    | none => 0

/-- `DocumentAnalyzer._assess_complexity(data)`. -/
def assess_complexity (d : Summary) : String :=
  if elementsCount d > 50 then "高複雜度"
  else if elementsCount d > 20 then "中等複雜度"
  else "低複雜度"

/-! ## Evaluation helpers for concrete rational values -/

theorem pyRound_intCast (n : ℤ) : pyRound ((n : ℚ)) = n := by
  unfold pyRound
  rw [Int.floor_intCast]
  norm_num

theorem roundTo_int (q : ℚ) (n : ℕ) (m : ℤ) (h : q * 10 ^ n = (m : ℚ)) :
    roundTo q n = (m : ℚ) / 10 ^ n := by
  unfold roundTo
  rw [h, pyRound_intCast]

theorem half_point_eval (s : String) (v : ℚ) (m : ℤ) (r : ℚ)
    (hp : pyFloatQ? s = some v) (hm : v * HALF_POINT_TO_PT * 10 ^ 2 = (m : ℚ))
    (hr : (m : ℚ) / 10 ^ 2 = r) :
    half_point_to_pt (some s) = some r := by
  simp only [half_point_to_pt, hp, Option.map_some']
  rw [roundTo_int _ _ _ hm, hr]

theorem emu_eval (s : String) (v : ℤ) (m : ℤ) (r : ℚ)
    (hp : pyInt? s = some v) (hm : (v : ℚ) / EMU_PER_CM * 10 ^ 3 = (m : ℚ))
    (hr : (m : ℚ) / 10 ^ 3 = r) :
    emu_to_cm (some s) = some r := by
  simp only [emu_to_cm, hp, Option.map_some']
  rw [roundTo_int _ _ _ hm, hr]

/-! ## Lemmas about the two run-merge implementations -/

theorem runsText_cons (r : Run) (l : List Run) :
    runsText (r :: l) = r.text ++ runsText l := rfl

theorem runsText_append (a b : List Run) :
    runsText (a ++ b) = runsText a ++ runsText b := by
  induction a with
  | nil => simp [runsText]
  | cons x xs ih => simp [runsText_cons, ih, String.append_assoc]

theorem runsText_single (x : Run) : runsText [x] = x.text := by
  simp [runsText]

theorem runsText_concat (l : List Run) (x : Run) :
    runsText (l ++ [x]) = runsText l ++ x.text := by
  rw [runsText_append, runsText_single]

theorem runsText_reverse_cons (x : Run) (l : List Run) :
    runsText ((x :: l).reverse) = runsText l.reverse ++ x.text := by
  rw [List.reverse_cons, runsText_concat]

theorem mergeRunsRev_text : ∀ (rs acc : List Run),
    runsText (mergeRunsRev acc rs).reverse = runsText acc.reverse ++ runsText rs
  | [], acc => by simp [mergeRunsRev, runsText]
  | r :: rest, acc => by
    by_cases hr : r.text = ""
    · simp only [mergeRunsRev, if_pos hr]
      rw [mergeRunsRev_text rest acc, runsText_cons, hr]
      simp
    · cases acc with
      | nil =>
        simp only [mergeRunsRev, if_neg hr]
        rw [mergeRunsRev_text rest [r]]
        rw [runsText_reverse_cons, runsText_cons]
        simp [runsText]
      | cons last front =>
        simp only [mergeRunsRev, if_neg hr]
        by_cases hs : styles_equal r.style last.style
        · rw [if_pos hs, mergeRunsRev_text rest]
          rw [runsText_reverse_cons, runsText_reverse_cons, runsText_cons]
          simp [String.append_assoc]
        · rw [if_neg hs, mergeRunsRev_text rest]
          rw [runsText_reverse_cons, runsText_reverse_cons, runsText_cons]
          simp [String.append_assoc]

/-- `merge_runs` preserves the total text. -/
theorem merge_runs_text (rs : List Run) :
    runsText (merge_runs rs) = runsText rs := by
  unfold merge_runs
  rw [mergeRunsRev_text]
  simp [runsText]

theorem mergeByStyleAux_text : ∀ (rs : List Run) (cur : Run) (acc : List Run),
    runsText (mergeByStyleAux cur acc rs).reverse
      = runsText acc.reverse ++ (cur.text ++ runsText rs)
  | [], cur, acc => by
    by_cases hc : cur.text = ""
    · simp only [mergeByStyleAux, if_pos hc, hc, runsText]
      simp
    · simp only [mergeByStyleAux, if_neg hc]
      rw [runsText_reverse_cons]
      simp [runsText]
  | r :: rest, cur, acc => by
    by_cases h : (create_style_key r.style == create_style_key cur.style)
        && r.text ≠ ""
    · simp only [mergeByStyleAux, if_pos h]
      rw [mergeByStyleAux_text rest]
      simp [runsText_cons, String.append_assoc]
    · simp only [mergeByStyleAux, if_neg h]
      rw [mergeByStyleAux_text rest]
      by_cases hc : cur.text = ""
      · simp [if_pos hc, hc, runsText_cons]
      · rw [if_neg hc, runsText_reverse_cons]
        simp [runsText_cons, String.append_assoc]

/-- `_merge_runs_by_style` preserves the total text. -/
theorem merge_runs_by_style_text (rs : List Run) :
    runsText (merge_runs_by_style rs) = runsText rs := by
  cases rs with
  | nil => rfl
  | cons r rest =>
    show runsText (mergeByStyleAux r [] rest).reverse = _
    rw [mergeByStyleAux_text]
    simp [runsText, runsText_cons]

theorem str_append_eq_empty {a b : String} : a ++ b = "" ↔ a = "" ∧ b = "" := by
  constructor
  · intro h
    have hd := congrArg String.data h
    simp at hd
    obtain ⟨h1, h2⟩ := hd
    exact ⟨by cases a; simp_all, by cases b; simp_all⟩
  · rintro ⟨rfl, rfl⟩; rfl

theorem str_append_ne_left {a b : String} (h : a ≠ "") : a ++ b ≠ "" :=
  fun hc => h (str_append_eq_empty.mp hc).1

/-- The run a merge emits for one maximal group: the concatenated text with
the style carried by the group's first run. -/
def mkBlock (b : List Run) : Run :=
  ⟨runsText b, b.headI.style⟩

theorem mergeRunsRev_blocks : ∀ (rs : List Run) (last : Run) (front : List Run),
    ∃ (pre : List Run) (blocks : List (List Run)),
      rs.filter (fun r => r.text != "") = pre ++ blocks.flatten
      ∧ (∀ b ∈ blocks, b ≠ [])
      ∧ (mergeRunsRev (last :: front) rs).reverse
          = front.reverse
            ++ (⟨last.text ++ runsText pre, last.style⟩ :: blocks.map mkBlock)
  | [], last, front => by
    refine ⟨[], [], by simp, by simp, ?_⟩
    simp [mergeRunsRev, runsText, List.reverse_cons]
  | r :: rest, last, front => by
    by_cases hr : r.text = ""
    · obtain ⟨pre, blocks, h1, h2, h3⟩ := mergeRunsRev_blocks rest last front
      refine ⟨pre, blocks, ?_, h2, ?_⟩
      · rw [List.filter_cons]
        simp only [hr, bne_self_eq_false, if_false]
        exact h1
      · simp only [mergeRunsRev, if_pos hr]
        exact h3
    · by_cases hs : styles_equal r.style last.style
      · obtain ⟨pre, blocks, h1, h2, h3⟩ :=
          mergeRunsRev_blocks rest ⟨last.text ++ r.text, last.style⟩ front
        refine ⟨r :: pre, blocks, ?_, h2, ?_⟩
        · rw [List.filter_cons]
          simp only [bne_iff_ne, ne_eq, hr, not_false_eq_true, if_true, h1,
            List.cons_append]
        · simp only [mergeRunsRev, if_neg hr, if_pos hs]
          rw [h3]
          simp [runsText_cons, String.append_assoc]
      · obtain ⟨pre, blocks, h1, h2, h3⟩ :=
          mergeRunsRev_blocks rest r (last :: front)
        refine ⟨[], (r :: pre) :: blocks, ?_, ?_, ?_⟩
        · rw [List.filter_cons]
          simp only [bne_iff_ne, ne_eq, hr, not_false_eq_true, if_true, h1]
          simp
        · intro b hb
          rcases List.mem_cons.mp hb with rfl | hb
          · exact List.cons_ne_nil _ _
          · exact h2 b hb
        · simp only [mergeRunsRev, if_neg hr, if_neg hs]
          rw [h3]
          simp [List.reverse_cons, mkBlock, runsText_cons, runsText,
            List.append_assoc]

/-- `merge_runs` output structure: the non-empty input runs split into
consecutive nonempty groups, emitted in order as text-concatenation with the
group head's style. -/
theorem merge_runs_blocks (rs : List Run) :
    ∃ blocks : List (List Run),
      rs.filter (fun r => r.text != "") = blocks.flatten
      ∧ (∀ b ∈ blocks, b ≠ [])
      ∧ merge_runs rs = blocks.map mkBlock := by
  induction rs with
  | nil => exact ⟨[], by simp, by simp, rfl⟩
  | cons r rest ih =>
    by_cases hr : r.text = ""
    · obtain ⟨blocks, h1, h2, h3⟩ := ih
      refine ⟨blocks, ?_, h2, ?_⟩
      · rw [List.filter_cons]
        simp only [hr, bne_self_eq_false, if_false]
        exact h1
      · unfold merge_runs at h3 ⊢
        simp only [mergeRunsRev, if_pos hr]
        exact h3
    · obtain ⟨pre, blocks, h1, h2, h3⟩ := mergeRunsRev_blocks rest r []
      refine ⟨(r :: pre) :: blocks, ?_, ?_, ?_⟩
      · rw [List.filter_cons]
        simp only [bne_iff_ne, ne_eq, hr, not_false_eq_true, if_true, h1]
        simp
      · intro b hb
        rcases List.mem_cons.mp hb with rfl | hb
        · exact List.cons_ne_nil _ _
        · exact h2 b hb
      · unfold merge_runs
        simp only [mergeRunsRev, if_neg hr]
        rw [h3]
        simp [mkBlock, runsText_cons]

theorem runsText_ne_empty {b : List Run} (hb : b ≠ [])
    (h : ∀ y ∈ b, y.text ≠ "") : runsText b ≠ "" := by
  cases b with
  | nil => exact absurd rfl hb
  | cons y ys =>
    rw [runsText_cons]
    exact str_append_ne_left (h y (List.mem_cons_self y ys))

/-- Every run emitted by `merge_runs` has nonempty text. -/
theorem merge_runs_nonempty (rs : List Run) :
    ∀ x ∈ merge_runs rs, x.text ≠ "" := by
  obtain ⟨blocks, h1, h2, h3⟩ := merge_runs_blocks rs
  intro x hx
  rw [h3] at hx
  obtain ⟨b, hb, rfl⟩ := List.mem_map.mp hx
  refine runsText_ne_empty (h2 b hb) ?_
  intro y hy
  have : y ∈ rs.filter (fun r => r.text != "") := by
    rw [h1]
    exact List.mem_flatten.mpr ⟨b, hb, hy⟩
  exact bne_iff_ne.mp (List.mem_filter.mp this).2

/-- The text(s) flushed for the group currently accumulated from `cur` and
the style-key-merged runs `pre`: nothing when the group text is empty. -/
def emitTexts (cur : Run) (pre : List Run) : List String :=
  if cur.text ++ runsText pre = "" then [] else [cur.text ++ runsText pre]

theorem mergeByStyleAux_blocks :
    ∀ (rs : List Run) (cur : Run) (acc : List Run),
    ∃ (pre : List Run) (blocks : List (List Run)),
      rs.filter (fun r => r.text != "") = pre ++ blocks.flatten
      ∧ (∀ b ∈ blocks, b ≠ [] ∧ ∀ y ∈ b, y.text ≠ "")
      ∧ (mergeByStyleAux cur acc rs).reverse.map Run.text
          = acc.reverse.map Run.text ++ emitTexts cur pre
            ++ blocks.map runsText
  | [], cur, acc => by
    refine ⟨[], [], by simp, by simp, ?_⟩
    by_cases hc : cur.text = ""
    · simp [mergeByStyleAux, if_pos hc, emitTexts, hc, runsText]
    · simp only [mergeByStyleAux, if_neg hc]
      have he : emitTexts cur [] = [cur.text] := by
        simp [emitTexts, runsText, hc]
      rw [he]
      simp [List.reverse_cons]
  | r :: rest, cur, acc => by
    by_cases h : (create_style_key r.style == create_style_key cur.style)
        && r.text ≠ ""
    · obtain ⟨pre, blocks, h1, h2, h3⟩ :=
        mergeByStyleAux_blocks rest ⟨cur.text ++ r.text, cur.style⟩ acc
      have hr : r.text ≠ "" := by
        have := (Bool.and_eq_true _ _).mp h
        simpa using this.2
      refine ⟨r :: pre, blocks, ?_, h2, ?_⟩
      · rw [List.filter_cons]
        simp only [bne_iff_ne, ne_eq, hr, not_false_eq_true, if_true, h1,
          List.cons_append]
      · simp only [mergeByStyleAux, if_pos h]
        rw [h3]
        have : emitTexts ⟨cur.text ++ r.text, cur.style⟩ pre
            = emitTexts cur (r :: pre) := by
          simp [emitTexts, runsText_cons, String.append_assoc]
        rw [this]
    · obtain ⟨pre, blocks, h1, h2, h3⟩ :=
        mergeByStyleAux_blocks rest r (if cur.text = "" then acc else cur :: acc)
      have hpre : ∀ y ∈ pre, y.text ≠ "" := by
        intro y hy
        have : y ∈ rest.filter (fun r => r.text != "") := by
          rw [h1]; exact List.mem_append_left _ hy
        exact bne_iff_ne.mp (List.mem_filter.mp this).2
      have hacc : ((if cur.text = "" then acc else cur :: acc) :
            List Run).reverse.map Run.text
          = acc.reverse.map Run.text ++ emitTexts cur [] := by
        by_cases hc : cur.text = ""
        · simp [if_pos hc, emitTexts, hc, runsText]
        · have he : emitTexts cur [] = [cur.text] := by
            simp [emitTexts, runsText, hc]
          simp [if_neg hc, he, List.reverse_cons]
      by_cases hr : r.text = ""
      · -- the zero-text run is dropped; its group contributes `runsText pre`
        by_cases hp : pre = []
        · subst hp
          refine ⟨[], blocks, ?_, h2, ?_⟩
          · rw [List.filter_cons]
            simp only [hr, bne_self_eq_false, if_false]
            simpa using h1
          · simp only [mergeByStyleAux, if_neg h]
            rw [h3, hacc]
            have : emitTexts r [] = [] := by simp [emitTexts, runsText, hr]
            rw [this]
            simp
        · refine ⟨[], pre :: blocks, ?_, ?_, ?_⟩
          · rw [List.filter_cons]
            simp only [hr, bne_self_eq_false, if_false]
            simpa using h1
          · intro b hb
            rcases List.mem_cons.mp hb with rfl | hb
            · exact ⟨hp, hpre⟩
            · exact h2 b hb
          · simp only [mergeByStyleAux, if_neg h]
            rw [h3, hacc]
            have : emitTexts r pre = [runsText pre] := by
              simp only [emitTexts, hr]
              have : ("" : String) ++ runsText pre = runsText pre := by simp
              rw [this]
              simp [runsText_ne_empty hp hpre]
            rw [this]
            simp [String.append_assoc]
      · -- a nonempty run with a different key starts a new group
        refine ⟨[], (r :: pre) :: blocks, ?_, ?_, ?_⟩
        · rw [List.filter_cons]
          simp only [bne_iff_ne, ne_eq, hr, not_false_eq_true, if_true, h1]
          simp
        · intro b hb
          rcases List.mem_cons.mp hb with rfl | hb
          · refine ⟨List.cons_ne_nil _ _, ?_⟩
            intro y hy
            rcases List.mem_cons.mp hy with rfl | hy
            · exact hr
            · exact hpre y hy
          · exact h2 b hb
        · simp only [mergeByStyleAux, if_neg h]
          rw [h3, hacc]
          have : emitTexts r pre = [runsText (r :: pre)] := by
            simp only [emitTexts, runsText_cons]
            simp [str_append_ne_left hr]
          rw [this]
          simp [runsText_cons]

/-- `_merge_runs_by_style` output structure on the text level: the nonempty
input runs split into consecutive nonempty groups whose concatenations are
the output texts, in order. -/
theorem merge_runs_by_style_blocks (rs : List Run) :
    ∃ blocks : List (List Run),
      rs.filter (fun r => r.text != "") = blocks.flatten
      ∧ (∀ b ∈ blocks, b ≠ [])
      ∧ (merge_runs_by_style rs).map Run.text = blocks.map runsText := by
  cases rs with
  | nil => exact ⟨[], by simp, by simp, rfl⟩
  | cons r rest =>
    obtain ⟨pre, blocks, h1, h2, h3⟩ := mergeByStyleAux_blocks rest r []
    have hpre : ∀ y ∈ pre, y.text ≠ "" := by
      intro y hy
      have : y ∈ rest.filter (fun r => r.text != "") := by
        rw [h1]; exact List.mem_append_left _ hy
      exact bne_iff_ne.mp (List.mem_filter.mp this).2
    by_cases hr : r.text = ""
    · by_cases hp : pre = []
      · subst hp
        refine ⟨blocks, ?_, fun b hb => (h2 b hb).1, ?_⟩
        · rw [List.filter_cons]
          simp only [hr, bne_self_eq_false, if_false]
          simpa using h1
        · show (mergeByStyleAux r [] rest).reverse.map Run.text = _
          rw [h3]
          have : emitTexts r [] = [] := by simp [emitTexts, runsText, hr]
          rw [this]
          simp
      · refine ⟨pre :: blocks, ?_, ?_, ?_⟩
        · rw [List.filter_cons]
          simp only [hr, bne_self_eq_false, if_false]
          simpa using h1
        · intro b hb
          rcases List.mem_cons.mp hb with rfl | hb
          · exact hp
          · exact (h2 b hb).1
        · show (mergeByStyleAux r [] rest).reverse.map Run.text = _
          rw [h3]
          have : emitTexts r pre = [runsText pre] := by
            simp only [emitTexts, hr]
            have : ("" : String) ++ runsText pre = runsText pre := by simp
            rw [this]
            simp [runsText_ne_empty hp hpre]
          rw [this]
          simp
    · refine ⟨(r :: pre) :: blocks, ?_, ?_, ?_⟩
      · rw [List.filter_cons]
        simp only [bne_iff_ne, ne_eq, hr, not_false_eq_true, if_true, h1]
        simp
      · intro b hb
        rcases List.mem_cons.mp hb with rfl | hb
        · exact List.cons_ne_nil _ _
        · exact (h2 b hb).1
      · show (mergeByStyleAux r [] rest).reverse.map Run.text = _
        rw [h3]
        have : emitTexts r pre = [runsText (r :: pre)] := by
          simp only [emitTexts, runsText_cons]
          simp [str_append_ne_left hr]
        rw [this]
        simp [runsText_cons]

/-- Every run emitted by `_merge_runs_by_style` has nonempty text. -/
theorem merge_runs_by_style_nonempty (rs : List Run) :
    ∀ x ∈ merge_runs_by_style rs, x.text ≠ "" := by
  obtain ⟨blocks, h1, h2, h3⟩ := merge_runs_by_style_blocks rs
  intro x hx
  have : x.text ∈ (merge_runs_by_style rs).map Run.text := List.mem_map_of_mem _ hx
  rw [h3] at this
  obtain ⟨b, hb, hbx⟩ := List.mem_map.mp this
  rw [← hbx]
  refine runsText_ne_empty (h2 b hb) ?_
  intro y hy
  have : y ∈ rs.filter (fun r => r.text != "") := by
    rw [h1]
    exact List.mem_flatten.mpr ⟨b, hb, hy⟩
  exact bne_iff_ne.mp (List.mem_filter.mp this).2

theorem mergeRunsRev_drop :
    ∀ (xs : List Run) (acc : List Run) (s : RunStyle) (ys : List Run),
    mergeRunsRev acc (xs ++ ⟨"", s⟩ :: ys) = mergeRunsRev acc (xs ++ ys)
  | [], acc, s, ys => by simp [mergeRunsRev]
  | x :: xs, acc, s, ys => by
    by_cases hx : x.text = ""
    · simp only [List.cons_append, mergeRunsRev, if_pos hx]
      exact mergeRunsRev_drop xs acc s ys
    · cases acc with
      | nil =>
        simp only [List.cons_append, mergeRunsRev, if_neg hx]
        exact mergeRunsRev_drop xs [x] s ys
      | cons last front =>
        simp only [List.cons_append, mergeRunsRev, if_neg hx]
        by_cases hs : styles_equal x.style last.style
        · rw [if_pos hs, if_pos hs]
          exact mergeRunsRev_drop xs _ s ys
        · rw [if_neg hs, if_neg hs]
          exact mergeRunsRev_drop xs _ s ys

/-- In `merge_runs` a zero-text run is invisible: deleting it from the input
does not change the output at all. -/
theorem merge_runs_drop (xs ys : List Run) (s : RunStyle) :
    merge_runs (xs ++ ⟨"", s⟩ :: ys) = merge_runs (xs ++ ys) := by
  unfold merge_runs
  rw [mergeRunsRev_drop]

theorem mergeRunsRev_chain :
    ∀ (rs : List Run) (last : Run) (front : List Run),
    List.Chain' (fun a b => styles_equal b.style a.style = false)
      (front.reverse ++ [last]) →
    List.Chain' (fun a b => styles_equal b.style a.style = false)
      ((mergeRunsRev (last :: front) rs).reverse)
  | [], last, front => fun h => by
    simpa [mergeRunsRev, List.reverse_cons] using h
  | r :: rest, last, front => fun h => by
    by_cases hr : r.text = ""
    · simp only [mergeRunsRev, if_pos hr]
      exact mergeRunsRev_chain rest last front h
    · by_cases hs : styles_equal r.style last.style
      · simp only [mergeRunsRev, if_neg hr, if_pos hs]
        apply mergeRunsRev_chain rest ⟨last.text ++ r.text, last.style⟩ front
        rw [List.chain'_append] at h ⊢
        refine ⟨h.1, List.chain'_singleton _, ?_⟩
        intro x hx y hy
        simp only [List.head?_cons, Option.mem_some_iff] at hy
        subst hy
        exact h.2.2 x hx last (by simp)
      · simp only [mergeRunsRev, if_neg hr, if_neg hs]
        apply mergeRunsRev_chain rest r (last :: front)
        rw [List.reverse_cons]
        apply List.Chain'.append h (List.chain'_singleton _)
        intro x hx y hy
        simp only [List.head?_cons, Option.mem_some_iff] at hy
        simp only [List.getLast?_concat, Option.mem_some_iff] at hx
        subst hx; subst hy
        exact Bool.not_eq_true _ ▸ (by simpa using hs)

/-- Adjacent runs in a `merge_runs` output never satisfy `styles_equal`. -/
theorem merge_runs_chain (rs : List Run) :
    List.Chain' (fun a b => styles_equal b.style a.style = false)
      (merge_runs rs) := by
  induction rs with
  | nil => simp [merge_runs, mergeRunsRev]
  | cons r rest ih =>
    by_cases hr : r.text = ""
    · unfold merge_runs at ih ⊢
      simp only [mergeRunsRev, if_pos hr]
      exact ih
    · unfold merge_runs
      simp only [mergeRunsRev, if_neg hr]
      exact mergeRunsRev_chain rest r [] (by simp)

theorem mergeRunsRev_fixpoint :
    ∀ (l : List Run) (last : Run) (front : List Run),
    (∀ x ∈ l, x.text ≠ "") →
    List.Chain' (fun a b => styles_equal b.style a.style = false) (last :: l) →
    mergeRunsRev (last :: front) l = l.reverse ++ (last :: front)
  | [], last, front, _, _ => by simp [mergeRunsRev]
  | r :: rest, last, front, hne, hch => by
    have hr : r.text ≠ "" := hne r (List.mem_cons_self _ _)
    have hs : styles_equal r.style last.style = false :=
      (List.chain'_cons.mp hch).1
    simp only [mergeRunsRev, if_neg hr, hs]
    rw [mergeRunsRev_fixpoint rest r (last :: front)
      (fun x hx => hne x (List.mem_cons_of_mem _ hx))
      (List.chain'_cons.mp hch).2]
    simp

theorem merge_runs_fixpoint (l : List Run) (h1 : ∀ x ∈ l, x.text ≠ "")
    (h2 : List.Chain' (fun a b => styles_equal b.style a.style = false) l) :
    merge_runs l = l := by
  cases l with
  | nil => rfl
  | cons r rest =>
    unfold merge_runs
    simp only [mergeRunsRev, if_neg (h1 r (List.mem_cons_self _ _))]
    rw [mergeRunsRev_fixpoint rest r []
      (fun x hx => h1 x (List.mem_cons_of_mem _ hx)) h2]
    simp

/-- `merge_runs` is idempotent on every input. -/
theorem merge_runs_idempotent (rs : List Run) :
    merge_runs (merge_runs rs) = merge_runs rs :=
  merge_runs_fixpoint _ (merge_runs_nonempty rs) (merge_runs_chain rs)

theorem mergeByStyleAux_chain :
    ∀ (rs : List Run) (cur : Run) (acc : List Run),
    (∀ x ∈ rs, x.text ≠ "") → cur.text ≠ "" →
    List.Chain' (fun a b =>
      (create_style_key b.style == create_style_key a.style) = false)
      (acc.reverse ++ [cur]) →
    List.Chain' (fun a b =>
      (create_style_key b.style == create_style_key a.style) = false)
      ((mergeByStyleAux cur acc rs).reverse)
  | [], cur, acc => fun _ hc h => by
    simpa [mergeByStyleAux, if_neg hc, List.reverse_cons] using h
  | r :: rest, cur, acc => fun hne hc h => by
    have hr : r.text ≠ "" := hne r (List.mem_cons_self _ _)
    by_cases hk : (create_style_key r.style == create_style_key cur.style)
        && r.text ≠ ""
    · simp only [mergeByStyleAux, if_pos hk]
      apply mergeByStyleAux_chain rest ⟨cur.text ++ r.text, cur.style⟩ acc
        (fun x hx => hne x (List.mem_cons_of_mem _ hx))
        (str_append_ne_left hc)
      rw [List.chain'_append] at h ⊢
      refine ⟨h.1, List.chain'_singleton _, ?_⟩
      intro x hx y hy
      simp only [List.head?_cons, Option.mem_some_iff] at hy
      subst hy
      exact h.2.2 x hx cur (by simp)
    · have hkf : (create_style_key r.style == create_style_key cur.style)
          = false := by
        rcases Bool.eq_false_or_eq_true
          (create_style_key r.style == create_style_key cur.style) with hf | ht
        · exact absurd (by simp [hf, hr]) hk
        · exact ht
      simp only [mergeByStyleAux, if_neg hk, if_neg hc]
      apply mergeByStyleAux_chain rest r (cur :: acc)
        (fun x hx => hne x (List.mem_cons_of_mem _ hx)) hr
      rw [List.reverse_cons]
      apply List.Chain'.append h (List.chain'_singleton _)
      intro x hx y hy
      simp only [List.head?_cons, Option.mem_some_iff] at hy
      simp only [List.getLast?_concat, Option.mem_some_iff] at hx
      subst hx; subst hy
      exact hkf

/-- On an input of nonempty-text runs, adjacent `_merge_runs_by_style`
output runs have distinct style keys. -/
theorem merge_runs_by_style_chain (rs : List Run)
    (h : ∀ x ∈ rs, x.text ≠ "") :
    List.Chain' (fun a b =>
      (create_style_key b.style == create_style_key a.style) = false)
      (merge_runs_by_style rs) := by
  cases rs with
  | nil => simp [merge_runs_by_style]
  | cons r rest =>
    show List.Chain' _ (mergeByStyleAux r [] rest).reverse
    exact mergeByStyleAux_chain rest r []
      (fun x hx => h x (List.mem_cons_of_mem _ hx))
      (h r (List.mem_cons_self _ _)) (by simp)

theorem mergeByStyleAux_fixpoint :
    ∀ (l : List Run) (cur : Run) (acc : List Run),
    (∀ x ∈ l, x.text ≠ "") → cur.text ≠ "" →
    List.Chain' (fun a b =>
      (create_style_key b.style == create_style_key a.style) = false)
      (cur :: l) →
    mergeByStyleAux cur acc l = l.reverse ++ (cur :: acc)
  | [], cur, acc, _, hc, _ => by simp [mergeByStyleAux, if_neg hc]
  | r :: rest, cur, acc, hne, hc, hch => by
    have hr : r.text ≠ "" := hne r (List.mem_cons_self _ _)
    have hk : (create_style_key r.style == create_style_key cur.style)
        = false := (List.chain'_cons.mp hch).1
    have hcond : ((create_style_key r.style == create_style_key cur.style)
        && r.text ≠ "") = false := by simp [hk]
    simp only [mergeByStyleAux, hcond, if_false, if_neg hc]
    rw [mergeByStyleAux_fixpoint rest r (cur :: acc)
      (fun x hx => hne x (List.mem_cons_of_mem _ hx)) hr
      (List.chain'_cons.mp hch).2]
    simp

theorem merge_runs_by_style_fixpoint (l : List Run)
    (h1 : ∀ x ∈ l, x.text ≠ "")
    (h2 : List.Chain' (fun a b =>
      (create_style_key b.style == create_style_key a.style) = false) l) :
    merge_runs_by_style l = l := by
  cases l with
  | nil => rfl
  | cons r rest =>
    show (mergeByStyleAux r [] rest).reverse = _
    rw [mergeByStyleAux_fixpoint rest r []
      (fun x hx => h1 x (List.mem_cons_of_mem _ hx))
      (h1 r (List.mem_cons_self _ _)) h2]
    simp

/-- `_merge_runs_by_style` is idempotent on inputs whose runs all carry
text (in particular on every `merge_runs` output, as in the pipeline). -/
theorem merge_runs_by_style_idem_of_nonempty (rs : List Run)
    (h : ∀ x ∈ rs, x.text ≠ "") :
    merge_runs_by_style (merge_runs_by_style rs) = merge_runs_by_style rs :=
  merge_runs_by_style_fixpoint _ (merge_runs_by_style_nonempty rs)
    (merge_runs_by_style_chain rs h)

/-! ## Concrete set-enumeration environments

Python fixes no iteration order for a `set` of strings across interpreter
processes (`PYTHONHASHSEED`): `list(s)` only guarantees the same elements
without duplicates.  The analyzer model therefore takes enumeration
functions as parameters; `ValidEnum` is exactly Python's guarantee, and the
sorted/reverse-sorted enumerations below are two concrete environments. -/

/-- A `list(set)` conversion as Python guarantees it: right elements, no
duplicates, any order. -/
def ValidEnum {α : Type} [DecidableEq α] (e : Finset α → List α) : Prop :=
  ∀ s, (e s).Nodup ∧ (e s).toFinset = s

/-- Kernel-computable lexicographic comparison of char lists. -/
def listLeB : List Char → List Char → Bool
  | [], _ => true
  | _ :: _, [] => false
  | a :: as, b :: bs =>
    if a.toNat < b.toNat then true
    else if b.toNat < a.toNat then false
    else listLeB as bs

theorem charToNat_inj {a b : Char} (h : a.toNat = b.toNat) : a = b :=
  Char.eq_of_val_eq (UInt32.ext h)

theorem listLeB_total : ∀ a b, listLeB a b = true ∨ listLeB b a = true
  | [], _ => Or.inl rfl
  | _ :: _, [] => Or.inr rfl
  | a :: as, b :: bs => by
    rcases Nat.lt_trichotomy a.toNat b.toNat with h | h | h
    · left; simp [listLeB, h]
    · have hne : ¬a.toNat < b.toNat := by omega
      have hne2 : ¬b.toNat < a.toNat := by omega
      rcases listLeB_total as bs with ih | ih
      · left; simp [listLeB, hne, hne2, ih]
      · right; simp [listLeB, hne, hne2, ih]
    · right; simp [listLeB, h]

theorem listLeB_antisymm : ∀ a b, listLeB a b = true → listLeB b a = true →
    a = b
  | [], [], _, _ => rfl
  | [], _ :: _, _, h => by simp [listLeB] at h
  | _ :: _, [], h, _ => by simp [listLeB] at h
  | a :: as, b :: bs, h1, h2 => by
    by_cases hab : a.toNat < b.toNat
    · have : ¬b.toNat < a.toNat := by omega
      simp [listLeB, hab, this] at h2
    · by_cases hba : b.toNat < a.toNat
      · simp [listLeB, hab, hba] at h1
      · have he : a = b := charToNat_inj (by omega)
        subst he
        simp only [listLeB, hab, if_neg hab, lt_self_iff_false, if_false] at h1 h2
        rw [listLeB_antisymm as bs h1 h2]

theorem listLeB_trans : ∀ a b c, listLeB a b = true → listLeB b c = true →
    listLeB a c = true
  | [], _, _, _, _ => rfl
  | _ :: _, [], _, h, _ => by simp [listLeB] at h
  | _ :: _, _ :: _, [], _, h => by simp [listLeB] at h
  | a :: as, b :: bs, c :: cs, h1, h2 => by
    by_cases hac : a.toNat < c.toNat
    · simp [listLeB, hac]
    · by_cases hca : c.toNat < a.toNat
      · exfalso
        by_cases hab : a.toNat < b.toNat
        · by_cases hbc : b.toNat < c.toNat
          · omega
          · by_cases hcb : c.toNat < b.toNat
            · simp [listLeB, hbc, hcb] at h2
            · omega
        · by_cases hba : b.toNat < a.toNat
          · simp [listLeB, hab, hba] at h1
          · by_cases hbc : b.toNat < c.toNat
            · omega
            · by_cases hcb : c.toNat < b.toNat
              · simp [listLeB, hbc, hcb] at h2
              · omega
      · have hace : a.toNat = c.toNat := by omega
        simp only [listLeB, hac, if_neg hac, hca, if_neg hca, if_false]
        by_cases hab : a.toNat < b.toNat
        · by_cases hbc : b.toNat < c.toNat
          · omega
          · by_cases hcb : c.toNat < b.toNat
            · simp [listLeB, hbc, hcb] at h2
            · omega
        · by_cases hba : b.toNat < a.toNat
          · simp [listLeB, hab, hba] at h1
          · by_cases hbc : b.toNat < c.toNat
            · omega
            · by_cases hcb : c.toNat < b.toNat
              · simp [listLeB, hbc, hcb] at h2
              · simp only [listLeB, hab, if_neg hab, hba, if_neg hba,
                  if_false] at h1
                simp only [listLeB, hbc, if_neg hbc, hcb, if_neg hcb,
                  if_false] at h2
                exact listLeB_trans as bs cs h1 h2

/-- Kernel-computable total order on strings. -/
def strLe (a b : String) : Prop := listLeB a.data b.data = true

instance : DecidableRel strLe := fun a b => by
  unfold strLe
  infer_instance

instance : IsTrans String strLe :=
  ⟨fun a b c h1 h2 => listLeB_trans a.data b.data c.data h1 h2⟩

instance : IsAntisymm String strLe :=
  ⟨fun a b h1 h2 => by
    cases a; cases b
    exact congrArg String.mk (listLeB_antisymm _ _ h1 h2)⟩

instance : IsTotal String strLe :=
  ⟨fun a b => listLeB_total a.data b.data⟩

/-- Kernel-computable total order on `字距` values: numbers before raw
strings. -/
def spLe : SpVal → SpVal → Prop
  | Sum.inl q, Sum.inl r => q ≤ r
  | Sum.inl _, Sum.inr _ => True
  | Sum.inr _, Sum.inl _ => False
  | Sum.inr s, Sum.inr t => strLe s t

instance : DecidableRel spLe := fun a b => by
  cases a <;> cases b <;> unfold spLe <;> infer_instance

instance : IsTrans SpVal spLe :=
  ⟨fun a b c h1 h2 => by
    cases a <;> cases b <;> cases c <;> simp only [spLe] at h1 h2 ⊢ <;>
      first
      | trivial
      | exact le_trans h1 h2
      | exact listLeB_trans _ _ _ h1 h2⟩

instance : IsAntisymm SpVal spLe :=
  ⟨fun a b h1 h2 => by
    cases a with
    | inl q =>
      cases b with
      | inl r => exact congrArg Sum.inl (le_antisymm h1 h2)
      | inr t => exact absurd h2 (by simp [spLe])
    | inr s =>
      cases b with
      | inl r => exact absurd h1 (by simp [spLe])
      | inr t =>
        have hst : s = t := by
          cases s; cases t
          exact congrArg String.mk (listLeB_antisymm _ _ h1 h2)
        exact congrArg Sum.inr hst⟩

instance : IsTotal SpVal spLe :=
  ⟨fun a b => by
    cases a with
    | inl q =>
      cases b with
      | inl r => exact le_total q r
      | inr t => exact Or.inl trivial
    | inr s =>
      cases b with
      | inl r => exact Or.inr trivial
      | inr t => exact listLeB_total s.data t.data⟩

/-- Sort the underlying multiset of a finite set: a canonical,
kernel-computable enumeration. -/
def sortedOfMultiset {α : Type} (le : α → α → Prop) [DecidableRel le]
    [IsTrans α le] [IsAntisymm α le] [IsTotal α le] (m : Multiset α) :
    List α :=
  Quot.liftOn m (fun l => l.insertionSort le) (fun a b h =>
    List.eq_of_perm_of_sorted
      ((List.perm_insertionSort le a).trans
        ((Quotient.exact (Quotient.sound h)).trans
          (List.perm_insertionSort le b).symm))
      (List.sorted_insertionSort le a) (List.sorted_insertionSort le b))

/-- The sorted enumeration of a finite set. -/
def ascEnum {α : Type} (le : α → α → Prop) [DecidableRel le]
    [IsTrans α le] [IsAntisymm α le] [IsTotal α le] [DecidableEq α]
    (s : Finset α) : List α :=
  sortedOfMultiset le s.val

/-- The reverse-sorted enumeration of a finite set. -/
def descEnum {α : Type} (le : α → α → Prop) [DecidableRel le]
    [IsTrans α le] [IsAntisymm α le] [IsTotal α le] [DecidableEq α]
    (s : Finset α) : List α :=
  (ascEnum le s).reverse

theorem ascEnum_valid {α : Type} (le : α → α → Prop) [DecidableRel le]
    [IsTrans α le] [IsAntisymm α le] [IsTotal α le] [DecidableEq α] :
    ValidEnum (ascEnum le) := by
  rintro ⟨m, hnd⟩
  induction m using Quotient.inductionOn with
  | h l =>
    have hperm : List.Perm (List.insertionSort le l) l :=
      List.perm_insertionSort le l
    have hdef : ascEnum le ⟨Quotient.mk _ l, hnd⟩ = List.insertionSort le l :=
      rfl
    constructor
    · rw [hdef]
      exact hperm.nodup_iff.mpr hnd
    · ext a
      rw [hdef]
      simp only [List.mem_toFinset]
      rw [hperm.mem_iff]
      rfl

theorem descEnum_valid {α : Type} (le : α → α → Prop) [DecidableRel le]
    [IsTrans α le] [IsAntisymm α le] [IsTotal α le] [DecidableEq α] :
    ValidEnum (descEnum le) := by
  intro s
  obtain ⟨h1, h2⟩ := ascEnum_valid le s
  constructor
  · simpa [descEnum] using h1
  · show ((ascEnum le s).reverse).toFinset = s
    rw [List.toFinset_reverse]
    exact h2

/-- The ascending-order environment for the three element types. -/
def ascS : Finset String → List String := ascEnum strLe

def ascQ : Finset ℚ → List ℚ := ascEnum (fun a b => a ≤ b)

def ascP : Finset SpVal → List SpVal := ascEnum spLe

/-- A second environment: strings enumerated in the reverse order. -/
def descS : Finset String → List String := descEnum strLe

/-! ## Claim theorems -/

/-- C6: for every input (a missing value or any string), `half_point_to_pt`
and `emu_to_cm` return an absent value rather than raising — absent/non-numeric
input yields `none` — and numeric input is converted: half-points × 0.5
(`"24"` ↦ 12.0) and EMU ÷ 360000 (`"360000"` ↦ 1.0, `"1260000"` ↦ 3.5). -/
theorem C6_unit_conversions_never_raise :
    half_point_to_pt none = none ∧ emu_to_cm none = none
    ∧ (∀ s : String, pyFloatQ? s = none → half_point_to_pt (some s) = none)
    ∧ (∀ s : String, pyInt? s = none → emu_to_cm (some s) = none)
    ∧ (∀ (s : String) (q : ℚ), pyFloatQ? s = some q →
        half_point_to_pt (some s) = some (roundTo (q * HALF_POINT_TO_PT) 2))
    ∧ (∀ (s : String) (n : ℤ), pyInt? s = some n →
        emu_to_cm (some s) = some (roundTo ((n : ℚ) / EMU_PER_CM) 3))
    ∧ half_point_to_pt (some "24") = some 12
    ∧ emu_to_cm (some "360000") = some 1
    ∧ emu_to_cm (some "1260000") = some (7/2) := by
  refine ⟨rfl, rfl, ?_, ?_, ?_, ?_,
    half_point_eval "24" ((24 : ℕ) : ℚ) 1200 12 rfl
      (by norm_num [HALF_POINT_TO_PT]) (by norm_num),
    emu_eval "360000" ((360000 : ℕ) : ℤ) 1000 1 rfl
      (by norm_num [EMU_PER_CM]) (by norm_num),
    emu_eval "1260000" ((1260000 : ℕ) : ℤ) 3500 (7/2) rfl
      (by norm_num [EMU_PER_CM]) (by norm_num)⟩
  · intro s h; simp [half_point_to_pt, h]
  · intro s h; simp [emu_to_cm, h]
  · intro s q h; simp [half_point_to_pt, h]
  · intro s n h; simp [emu_to_cm, h]

/-- Witness for C6: the theorem applied at the non-numeric strings `"abc"`
and `"xyz"` and at the numeric string `"25"`. -/
theorem C6_unit_conversions_never_raise_witness :
    half_point_to_pt (some "abc") = none ∧ emu_to_cm (some "xyz") = none
    ∧ half_point_to_pt (some "25")
      = some (roundTo (((25 : ℕ) : ℚ) * HALF_POINT_TO_PT) 2) :=
  ⟨C6_unit_conversions_never_raise.2.2.1 "abc" rfl,
   C6_unit_conversions_never_raise.2.2.2.1 "xyz" rfl,
   C6_unit_conversions_never_raise.2.2.2.2.1 "25" ((25 : ℕ) : ℚ) rfl⟩

/-- The cell node of C9's failing input:
`<w:tc><w:tcPr><w:tcW w:w="1000" w:type="dxa"/></w:tcPr></w:tc>`. -/
def c9cell : Xml :=
  Xml.elem "w:tc" [] none
    [Xml.elem "w:tcPr" [] none
      [Xml.elem "w:tcW" [("w:w", "1000"), ("w:type", "dxa")] none []]]

/-- C9 (code bug): for a cell width given in twips (`type="dxa"`) the claim
(and the twips unit: 20 twips = 1 pt) requires `w / 20`; the source instead
pipes the value through `half_point_to_pt`, reporting `w × 0.5`.  At
`w = "1000"` the code reports 500.0 pt where 1000 twips are 50 pt. -/
theorem C9_cell_width_uses_half_point_conversion :
    (parse_cell_properties c9cell).width_pt = some (some 500)
    ∧ ((500 : ℚ) ≠ 1000 / 20) := by
  constructor
  · show some (half_point_to_pt (some "1000")) = some (some 500)
    rw [half_point_eval "1000" ((1000 : ℕ) : ℚ) 50000 500 rfl
      (by norm_num [HALF_POINT_TO_PT]) (by norm_num)]
  · norm_num

theorem processEntry_none (s : Summary) (name : String) :
    processEntry s name none = s := by
  unfold processEntry
  by_cases h : eligibleName name <;> simp [h]

/-- C5 (amended): an archive entry whose bytes fail to parse as XML is
skipped silently — the analysis of the whole archive is literally the
analysis of the archive without that entry, for every position of the entry
and every enumeration environment.  In particular every remaining part is
still processed and a completed summary is returned; but no diagnostic is
recorded for the failed part (see the counterexample). -/
theorem C5_parse_failure_skips_part (eS : Finset String → List String)
    (eQ : Finset ℚ → List ℚ) (eP : Finset SpVal → List SpVal)
    (xs ys : List (String × Option Xml)) (name : String) :
    summarize eS eQ eP (xs ++ (name, none) :: ys)
      = summarize eS eQ eP (xs ++ ys) := by
  have hb : summarizeBase (xs ++ (name, none) :: ys) = summarizeBase (xs ++ ys) := by
    unfold summarizeBase
    rw [List.foldl_append, List.foldl_append, List.foldl_cons]
    simp only [processEntry_none]
  unfold summarize
  rw [hb]

/-- C5, counterexample to the diagnostic clause: an archive whose only
eligible part fails to parse yields a completed summary whose `提示`
(diagnostics) list is empty — the failure is not recorded. -/
theorem C5_no_diagnostic_counterexample :
    summarize ascS ascQ ascP [("word/document.xml", none)]
      = some { paragraphs := [], wordArt := [], notices := [] } := rfl

/-- A concrete nonempty style shared by the C3/C4 counterexample runs. -/
def cexStyle : RunStyle := { bold := true }

/-- The C3/C4 counterexample input: two style-identical runs around a
zero-text run with the same style. -/
def cexRuns : List Run :=
  [⟨"x", cexStyle⟩, ⟨"", cexStyle⟩, ⟨"y", cexStyle⟩]

/-- C3, counterexample: in `_merge_runs_by_style` a zero-text run is dropped
but still flushes the current group, so the style-identical runs around it
stay separate — merging the same two runs without the zero-text run between
them yields one run. -/
theorem C3_zero_text_breaks_merge_counterexample :
    merge_runs_by_style cexRuns = [⟨"x", cexStyle⟩, ⟨"y", cexStyle⟩]
    ∧ merge_runs_by_style [⟨"x", cexStyle⟩, ⟨"y", cexStyle⟩]
      = [⟨"xy", cexStyle⟩] := by
  constructor <;> decide

/-- C4, counterexample: `_merge_runs_by_style` is not idempotent — its
output on `cexRuns` contains two adjacent equal-key runs, which a second
application merges. -/
theorem C4_merge_not_idempotent_counterexample :
    merge_runs_by_style (merge_runs_by_style cexRuns)
      ≠ merge_runs_by_style cexRuns := by
  decide

/-- C3 (amended): both merge implementations preserve left-to-right order
(the output is the in-order decomposition of the nonempty input runs into
consecutive groups), the total output text equals the concatenation of the
non-empty input texts, and every output run is nonempty; in `merge_runs` a
zero-text run is simply dropped (deleting it never changes the output), but
in `_merge_runs_by_style` it terminates the current group, so style-identical
neighbours around it stay separate (see the counterexample). -/
theorem C3_run_merge_guarantees (rs : List Run) :
    runsText (merge_runs rs) = runsText rs
    ∧ runsText (merge_runs_by_style rs) = runsText rs
    ∧ (∀ x ∈ merge_runs rs, x.text ≠ "")
    ∧ (∀ x ∈ merge_runs_by_style rs, x.text ≠ "")
    ∧ (∃ blocks : List (List Run),
        rs.filter (fun r => r.text != "") = blocks.flatten
        ∧ (∀ b ∈ blocks, b ≠ [])
        ∧ merge_runs rs = blocks.map mkBlock)
    ∧ (∃ blocks : List (List Run),
        rs.filter (fun r => r.text != "") = blocks.flatten
        ∧ (∀ b ∈ blocks, b ≠ [])
        ∧ (merge_runs_by_style rs).map Run.text = blocks.map runsText)
    ∧ (∀ (xs ys : List Run) (s : RunStyle),
        merge_runs (xs ++ ⟨"", s⟩ :: ys) = merge_runs (xs ++ ys)) :=
  ⟨merge_runs_text rs, merge_runs_by_style_text rs, merge_runs_nonempty rs,
   merge_runs_by_style_nonempty rs, merge_runs_blocks rs,
   merge_runs_by_style_blocks rs, merge_runs_drop⟩

/-- Witness for C3: the theorem applied at a concrete run list; the merged
run `"ab"` is a nonempty member of the output. -/
theorem C3_run_merge_guarantees_witness :
    runsText (merge_runs [⟨"a", {}⟩, ⟨"", {}⟩, ⟨"b", {}⟩])
      = runsText [(⟨"a", {}⟩ : Run), ⟨"", {}⟩, ⟨"b", {}⟩]
    ∧ (⟨"ab", {}⟩ : Run).text ≠ "" :=
  ⟨(C3_run_merge_guarantees [⟨"a", {}⟩, ⟨"", {}⟩, ⟨"b", {}⟩]).1,
   (C3_run_merge_guarantees [⟨"a", {}⟩, ⟨"", {}⟩, ⟨"b", {}⟩]).2.2.1
     ⟨"ab", {}⟩ (by decide)⟩

/-- C4 (amended): `merge_runs` is idempotent on every input;
`_merge_runs_by_style` is idempotent on run sequences whose runs all carry
text — which covers every pipeline input, since it runs on `merge_runs`
output — but not in general (see the counterexample). -/
theorem C4_merge_idempotence (rs : List Run) :
    merge_runs (merge_runs rs) = merge_runs rs
    ∧ ((∀ x ∈ rs, x.text ≠ "") →
        merge_runs_by_style (merge_runs_by_style rs) = merge_runs_by_style rs) :=
  ⟨merge_runs_idempotent rs, merge_runs_by_style_idem_of_nonempty rs⟩

/-- Witness for C4: the theorem applied at concrete run lists. -/
theorem C4_merge_idempotence_witness :
    merge_runs (merge_runs [⟨"a", cexStyle⟩, ⟨"b", {}⟩])
      = merge_runs [⟨"a", cexStyle⟩, ⟨"b", {}⟩]
    ∧ merge_runs_by_style (merge_runs_by_style [⟨"a", cexStyle⟩, ⟨"b", {}⟩])
      = merge_runs_by_style [⟨"a", cexStyle⟩, ⟨"b", {}⟩] :=
  ⟨(C4_merge_idempotence [⟨"a", cexStyle⟩, ⟨"b", {}⟩]).1,
   (C4_merge_idempotence [⟨"a", cexStyle⟩, ⟨"b", {}⟩]).2 (by decide)⟩

/-- The paragraph node of the C2 counterexample: one run whose text node
carries surrounding whitespace. -/
def c2root : Xml :=
  Xml.elem "w:body" [] none
    [Xml.elem "w:p" [] none
      [Xml.elem "w:r" [] none
        [Xml.elem "w:t" [] (some " a ") []]]]

/-- C2, counterexample: `extract_paragraph_text` strips the concatenated
text while the run texts are kept verbatim, so after both merge passes the
run concatenation `" a "` differs from the paragraph's `文字` field `"a"`. -/
theorem C2_runs_concat_counterexample :
    (parse_paragraphs c2root "word/document.xml").map applyMergePass
      = [{ source := "word/document.xml", index := 1, text := "a",
           runs := [⟨" a ", {}⟩] }]
    ∧ runsText [(⟨" a ", {}⟩ : Run)] ≠ "a" := by
  constructor <;> decide

/-- C2 (amended): for every paragraph node whose stripped full text (over
all descendant text nodes) coincides with the concatenation of its direct
run-child texts, the paragraph produced by the parser satisfies the claim —
after both merge passes the run-text concatenation equals the `文字` field.
Whitespace removed by `strip` and text nodes outside direct run children are
the only sources of divergence. -/
theorem C2_runs_concat_eq_text (part : String) (idx : ℕ) (p : Xml)
    (h : extract_paragraph_text p = runsText (rawRuns p)) :
    runsText ((applyMergePass (buildParagraph part idx p)).runs)
      = (buildParagraph part idx p).text := by
  have hbase : runsText (merge_runs (rawRuns p)) = extract_paragraph_text p :=
    (merge_runs_text (rawRuns p)).trans h.symm
  show runsText ((applyMergePass (buildParagraph part idx p)).runs)
      = extract_paragraph_text p
  unfold applyMergePass
  by_cases hz : (buildParagraph part idx p).runs = []
  · rw [if_pos hz]
    show runsText (buildParagraph part idx p).runs = _
    show runsText (merge_runs (rawRuns p)) = _
    exact hbase
  · rw [if_neg hz]
    show runsText (merge_runs_by_style (buildParagraph part idx p).runs) = _
    rw [merge_runs_by_style_text]
    exact hbase

/-- Witness for C2 (amended): a clean one-run paragraph node. -/
theorem C2_runs_concat_eq_text_witness :
    runsText ((applyMergePass (buildParagraph "word/document.xml" 1
      (Xml.elem "w:p" [] none
        [Xml.elem "w:r" [] none [Xml.elem "w:t" [] (some "hi") []]]))).runs)
      = (buildParagraph "word/document.xml" 1
      (Xml.elem "w:p" [] none
        [Xml.elem "w:r" [] none [Xml.elem "w:t" [] (some "hi") []]])).text :=
  C2_runs_concat_eq_text "word/document.xml" 1 _ (by decide)

/-- The C1 counterexample paragraph: a drawing carrying only the
intermediate preset-text-warp marker
(`a:graphic/a:graphicData/a:txBody/a:bodyPr/a:prstTxWarp`, no text box, no
`w14:textEffect`, no `v:textpath`). -/
def c1para : Xml :=
  Xml.elem "w:p" [] none
    [Xml.elem "w:drawing" [] none
      [Xml.elem "a:graphic" [] none
        [Xml.elem "a:graphicData" [] none
          [Xml.elem "a:txBody" [] none
            [Xml.elem "a:bodyPr" [] none
              [Xml.elem "a:prstTxWarp" [("prst", "textArchUp")] none []]]]]]]

/-- A part containing only the warp-marked paragraph. -/
def c1root : Xml :=
  Xml.elem "w:body" [] none [c1para]

/-- C1, counterexample: the warp-marked paragraph is excluded from the
paragraph collection (it carries a WordArt marker), yet the WordArt
collection stays empty — `DrawingParser._parse_w_drawing` produces an
element only when the drawing also carries a text box with nonempty text, a
`prstTxWarp` alone produces nothing.  So no "corresponding element appears
exactly once". -/
theorem C1_marker_exactly_once_counterexample :
    hasWordArtMarker c1para = true
    ∧ parse_paragraphs c1root "word/document.xml" = []
    ∧ drawingParse c1root "word/document.xml" = [] := by
  refine ⟨by decide, by decide, by decide⟩

/-- The structural trigger of `_parse_w_drawing`: a
`.//wps:txbx/w:txbxContent` whose text strips to nonempty. -/
def drawingTrigger (d : Xml) : Bool :=
  match d.findDescChild "wps:txbx" "w:txbxContent" with
  | none => false
  | some txbx => pyStrip (textOfTxbx txbx) != ""

theorem length_filterMap_eq_countP {α β : Type} (f : α → Option β)
    (l : List α) :
    (l.filterMap f).length = l.countP (fun a => (f a).isSome) := by
  induction l with
  | nil => rfl
  | cons x xs ih =>
    rw [List.filterMap_cons, List.countP_cons]
    cases hx : f x with
    | none => simp [hx, ih]
    | some b => simp [hx, ih]

theorem parseWDrawing_isSome (part : String) (d : Xml) :
    (parseWDrawing part d).isSome = drawingTrigger d := by
  unfold parseWDrawing drawingTrigger
  cases d.findDescChild "wps:txbx" "w:txbxContent" with
  | none => rfl
  | some txbx =>
    by_cases h : pyStrip (textOfTxbx txbx) ≠ ""
    · simp [h]
    · simp only [ne_eq, not_not] at h
      simp [h]

theorem parseVmlWordart_isSome (part : String) (v : Xml) :
    (parseVmlWordart part v).isSome = (v.findDesc "v:textpath").isSome := by
  unfold parseVmlWordart
  cases v.findDesc "v:textpath" with
  | none => rfl
  | some tp => rfl

theorem parseParagraphsAux_index (part : String) :
    ∀ (ps : List Xml) (n : ℕ) (para : Paragraph),
    para ∈ parseParagraphsAux part n ps →
    ∃ (j : ℕ) (p : Xml), ps.get? j = some p
      ∧ hasWordArtMarker p = false ∧ para.index = n + j + 1
  | [], _, _, h => absurd h (List.not_mem_nil _)
  | p :: rest, n, para, h => by
    by_cases hm : hasWordArtMarker p
    · rw [parseParagraphsAux, if_pos hm] at h
      obtain ⟨j, q, hq, hqm, hidx⟩ := parseParagraphsAux_index part rest (n + 1) para h
      exact ⟨j + 1, q, by simpa using hq, hqm, by omega⟩
    · rw [parseParagraphsAux, if_neg hm] at h
      rcases List.mem_cons.mp h with rfl | h
      · exact ⟨0, p, rfl, Bool.not_eq_true _ ▸ (by simpa using hm),
          by simp [buildParagraph]⟩
      · obtain ⟨j, q, hq, hqm, hidx⟩ := parseParagraphsAux_index part rest (n + 1) para h
        exact ⟨j + 1, q, by simpa using hq, hqm, by omega⟩

/-- C1 (amended): a paragraph node carrying any of the three WordArt markers
never contributes to the paragraph collection (no emitted paragraph carries
its 1-based index), and the number of WordArt elements of a part equals
(#`w14:textEffect` nodes) + (#`w:drawing` nodes with a nonempty text box) +
(#`v:shape` nodes containing a `v:textpath`).  Exclusion is guaranteed, but
"exactly one element per marked paragraph" is not: a warp-only drawing
contributes none, several markers in one paragraph contribute several. -/
theorem C1_marker_exclusion_and_counts (root : Xml) (part : String) :
    (∀ (i : ℕ) (p : Xml), (root.findAllDesc "w:p").get? i = some p →
      hasWordArtMarker p = true →
      ∀ para ∈ parse_paragraphs root part, para.index ≠ i + 1)
    ∧ (drawingParse root part).length
        = (root.findAllDesc "w14:textEffect").length
          + (root.findAllDesc "w:drawing").countP drawingTrigger
          + (root.findAllDesc "v:shape").countP
              (fun v => (v.findDesc "v:textpath").isSome) := by
  constructor
  · intro i p hget hmark para hpara hidx
    obtain ⟨j, q, hq, hqm, hidx2⟩ :=
      parseParagraphsAux_index part (root.findAllDesc "w:p") 0 para hpara
    have hji : j = i := by omega
    subst hji
    rw [hget] at hq
    cases hq
    rw [hmark] at hqm
    exact Bool.true_eq_false ▸ hqm
  · unfold drawingParse
    rw [List.length_append, List.length_append, List.length_map,
      length_filterMap_eq_countP, length_filterMap_eq_countP]
    congr 1
    · congr 1
      exact List.countP_congr (fun d _ => by rw [parseWDrawing_isSome part d])
    · exact List.countP_congr (fun v _ => by rw [parseVmlWordart_isSome part v])

/-- A part with the warp-marked paragraph followed by a plain paragraph. -/
def c1wroot : Xml :=
  Xml.elem "w:body" [] none
    [c1para,
     Xml.elem "w:p" [] none
       [Xml.elem "w:r" [] none [Xml.elem "w:t" [] (some "ok") []]]]

/-- Witness for C1 (amended): on `c1wroot` the marked paragraph sits at
position 0, the emitted paragraph has index 2 ≠ 1, and the WordArt element
count is 0 (one warp-only drawing, no text box, no text effects, no vector
shapes). -/
theorem C1_marker_exclusion_and_counts_witness :
    ({ source := "word/document.xml", index := 2, text := "ok",
       runs := [⟨"ok", {}⟩] } : Paragraph).index ≠ 0 + 1
    ∧ (drawingParse c1wroot "word/document.xml").length
        = (c1wroot.findAllDesc "w14:textEffect").length
          + (c1wroot.findAllDesc "w:drawing").countP drawingTrigger
          + (c1wroot.findAllDesc "v:shape").countP
              (fun v => (v.findDesc "v:textpath").isSome) :=
  ⟨(C1_marker_exclusion_and_counts c1wroot "word/document.xml").1 0 c1para
      rfl (by decide)
      { source := "word/document.xml", index := 2, text := "ok",
        runs := [⟨"ok", {}⟩] } (by decide),
   (C1_marker_exclusion_and_counts c1wroot "word/document.xml").2⟩

/-- C7: when the same trimmed nonempty text occurs in two different parts
with two different colors — as two paragraphs, or as a paragraph and a
WordArt element — the cross-source merger produces exactly one entry for
that text, whose color set and source-part set each have exactly two
elements; the occurrences union their facts instead of overwriting them. -/
theorem C7_cross_source_union (t p1 p2 c1 c2 : String)
    (ht : pyStrip t ≠ "") (hp : p1 ≠ p2) (hc : c1 ≠ c2)
    (hc1 : c1 ≠ "") (hc2 : c2 ≠ "") :
    (∃ e : MergedEntry,
      mergeEntries
        [{ source := p1, index := 1, text := t,
           runs := [⟨t, { color := some c1 }⟩] },
         { source := p2, index := 1, text := t,
           runs := [⟨t, { color := some c2 }⟩] }] []
        = some [(pyStrip t, e)]
      ∧ e.sources = {p1, p2} ∧ e.colors = {c1, c2}
      ∧ e.sources.card = 2 ∧ e.colors.card = 2)
    ∧ (∃ e : MergedEntry,
      mergeEntries
        [{ source := p1, index := 1, text := t,
           runs := [⟨t, { color := some c1 }⟩] }]
        [{ source := p2, text := some t, typ := "TextBox",
           style := { fill_color := some c2 } }]
        = some [(pyStrip t, e)]
      ∧ e.sources = {p1, p2} ∧ e.colors = {c1, c2}
      ∧ e.sources.card = 2 ∧ e.colors.card = 2) := by
  have hsrc : (insert p2 ({p1} : Finset String)) = {p1, p2} := by
    rw [Finset.pair_comm]
  have hcol : (insert c2 ({c1} : Finset String)) = {c1, c2} := by
    rw [Finset.pair_comm]
  have hsrcCard : (insert p2 ({p1} : Finset String)).card = 2 := by
    rw [Finset.card_insert_of_not_mem (by simp [hp.symm])]
    simp
  have hcolCard : (insert c2 ({c1} : Finset String)).card = 2 := by
    rw [Finset.card_insert_of_not_mem (by simp [hc.symm])]
    simp
  constructor
  · refine ⟨⟨pyStrip t, insert p2 {p1}, ∅, ∅, insert c2 {c1}, false, ∅, ∅, ∅⟩,
      ?_, hsrc, hcol, hsrcCard, hcolCard⟩
    simp [mergeEntries, paraStep, waStep, alistSetdefaultThen, addRunFacts,
      freshEntry, ht, hc1, hc2]
  · refine ⟨⟨pyStrip t, insert p2 {p1}, ∅, ∅, insert c2 {c1}, true, ∅, ∅, ∅⟩,
      ?_, hsrc, hcol, hsrcCard, hcolCard⟩
    simp [mergeEntries, paraStep, waStep, alistSetdefaultThen, addRunFacts,
      freshEntry, ht, hc1, hc2]

/-- Witness for C7: the theorem applied at the spec's example — text
`"標題"` in `word/document.xml` (color `#FF0000`) and `word/header1.xml`
(color `#0000FF`). -/
theorem C7_cross_source_union_witness :
    ∃ e : MergedEntry,
      mergeEntries
        [{ source := "word/document.xml", index := 1, text := "標題",
           runs := [⟨"標題", { color := some "#FF0000" }⟩] },
         { source := "word/header1.xml", index := 1, text := "標題",
           runs := [⟨"標題", { color := some "#0000FF" }⟩] }] []
        = some [(pyStrip "標題", e)]
      ∧ e.sources = {"word/document.xml", "word/header1.xml"}
      ∧ e.colors = {"#FF0000", "#0000FF"}
      ∧ e.sources.card = 2 ∧ e.colors.card = 2 :=
  (C7_cross_source_union "標題" "word/document.xml" "word/header1.xml"
    "#FF0000" "#0000FF" (by decide) (by decide) (by decide) (by decide)
    (by decide)).1

/-! ## C8: determinism up to set-enumeration order -/

theorem ascS_valid : ValidEnum ascS := ascEnum_valid strLe

theorem descS_valid : ValidEnum descS := descEnum_valid strLe

theorem ascQ_valid : ValidEnum ascQ := ascEnum_valid (fun a b => a ≤ b)

theorem ascP_valid : ValidEnum ascP := ascEnum_valid spLe

/-- Two merged-style output entries that agree except possibly in the order
of their set-derived lists. -/
def OutEntryEquiv (a b : OutEntry) : Prop :=
  a.text = b.text ∧ a.isWordArt = b.isWordArt
  ∧ a.sources.Perm b.sources ∧ a.fonts.Perm b.fonts ∧ a.sizes.Perm b.sizes
  ∧ a.colors.Perm b.colors ∧ a.spacings.Perm b.spacings
  ∧ a.outlineColors.Perm b.outlineColors
  ∧ a.backgroundColors.Perm b.backgroundColors

/-- Two summaries that agree except possibly in the order of the
set-derived lists inside `整合文字樣式`. -/
def SummaryUpToSetOrder (a b : Summary) : Prop :=
  a.paragraphs = b.paragraphs ∧ a.wordArt = b.wordArt
  ∧ a.notices = b.notices ∧ a.tables = b.tables ∧ a.images = b.images
  ∧ List.Forall₂ OutEntryEquiv a.merged b.merged

/-- `SummaryUpToSetOrder` on the `Option` layer (both runs fail together or
succeed together). -/
def OSummaryUpToSetOrder : Option Summary → Option Summary → Prop
  | some a, some b => SummaryUpToSetOrder a b
  | none, none => True
  | _, _ => False

theorem perm_of_validEnum {α : Type} [DecidableEq α]
    {e f : Finset α → List α} (he : ValidEnum e) (hf : ValidEnum f)
    (s : Finset α) : (e s).Perm (f s) :=
  List.perm_of_nodup_nodup_toFinset_eq (he s).1 (hf s).1
    ((he s).2.trans (hf s).2.symm)

theorem renderEntry_equiv {eS eS' : Finset String → List String}
    {eQ eQ' : Finset ℚ → List ℚ} {eP eP' : Finset SpVal → List SpVal}
    (hS : ValidEnum eS) (hS' : ValidEnum eS') (hQ : ValidEnum eQ)
    (hQ' : ValidEnum eQ') (hP : ValidEnum eP) (hP' : ValidEnum eP')
    (ent : MergedEntry) :
    OutEntryEquiv (renderEntry eS eQ eP ent) (renderEntry eS' eQ' eP' ent) :=
  ⟨rfl, rfl, perm_of_validEnum hS hS' _, perm_of_validEnum hS hS' _,
   perm_of_validEnum hQ hQ' _, perm_of_validEnum hS hS' _,
   (perm_of_validEnum hP hP' _).map normalizeSpacingVal,
   perm_of_validEnum hS hS' _, perm_of_validEnum hS hS' _⟩

theorem forall2_map_map {α β : Type} {R : β → β → Prop} {f g : α → β}
    (l : List α) (h : ∀ x ∈ l, R (f x) (g x)) :
    List.Forall₂ R (l.map f) (l.map g) := by
  induction l with
  | nil => exact List.Forall₂.nil
  | cons x xs ih =>
    exact List.Forall₂.cons (h x (List.mem_cons_self _ _))
      (ih (fun y hy => h y (List.mem_cons_of_mem _ hy)))

/-- C8 (amended): the analyzer is deterministic up to set-enumeration
order — two invocations under any two environments (Python processes with
any hash seeds) yield summaries that agree exactly, except that the lists
produced from the aggregated font/size/color/spacing/source sets in the
merged text-style map are only guaranteed to be permutations of each other.
Byte-for-byte identity holds only under a fixed enumeration order (see the
counterexample). -/
theorem C8_deterministic_up_to_set_order (eS eS' : Finset String → List String)
    (eQ eQ' : Finset ℚ → List ℚ) (eP eP' : Finset SpVal → List SpVal)
    (hS : ValidEnum eS) (hS' : ValidEnum eS') (hQ : ValidEnum eQ)
    (hQ' : ValidEnum eQ') (hP : ValidEnum eP) (hP' : ValidEnum eP')
    (A : List (String × Option Xml)) :
    OSummaryUpToSetOrder (summarize eS eQ eP A) (summarize eS' eQ' eP' A) := by
  unfold summarize merge_across_sources
  dsimp only
  cases hm : mergeEntries (summarizeBase A).paragraphs (summarizeBase A).wordArt with
  | none => simp only [hm, Option.map_none']; exact trivial
  | some m =>
    simp only [hm, Option.map_some']
    refine ⟨rfl, rfl, rfl, rfl, rfl, ?_⟩
    exact forall2_map_map m (fun kv _ =>
      renderEntry_equiv hS hS' hQ hQ' hP hP' kv.2)

/-- Part 1 of the C8 counterexample archive: `word/document.xml` with text
`標題` colored `FF0000`. -/
def c8part1 : Xml :=
  Xml.elem "w:body" [] none
    [Xml.elem "w:p" [] none
      [Xml.elem "w:r" [] none
        [Xml.elem "w:rPr" [] none
          [Xml.elem "w:color" [("w:val", "FF0000")] none []],
         Xml.elem "w:t" [] (some "標題") []]]]

/-- Part 2 of the C8 counterexample archive: `word/header1.xml` with the
same text colored `0000FF`. -/
def c8part2 : Xml :=
  Xml.elem "w:body" [] none
    [Xml.elem "w:p" [] none
      [Xml.elem "w:r" [] none
        [Xml.elem "w:rPr" [] none
          [Xml.elem "w:color" [("w:val", "0000FF")] none []],
         Xml.elem "w:t" [] (some "標題") []]]]

/-- The C8 counterexample archive. -/
def c8archive : List (String × Option Xml) :=
  [("word/document.xml", some c8part1), ("word/header1.xml", some c8part2)]

/-- C8, counterexample: two valid enumeration environments (ascending and
descending string order — `ascS_valid`, `descS_valid`), i.e., two interpreter
processes with different string-hash seeds, produce different summaries on
the same archive: the merged entry for `標題` lists its two colors in
different orders. -/
theorem C8_not_byte_identical_counterexample :
    summarize ascS ascQ ascP c8archive ≠ summarize descS ascQ ascP c8archive := by
  decide

/-- Witness for C8 (amended): applied to the two concrete environments and
the counterexample archive. -/
theorem C8_deterministic_up_to_set_order_witness :
    OSummaryUpToSetOrder (summarize ascS ascQ ascP c8archive)
      (summarize descS ascQ ascP c8archive) :=
  C8_deterministic_up_to_set_order ascS descS ascQ ascQ ascP ascP
    ascS_valid descS_valid ascQ_valid ascQ_valid ascP_valid ascP_valid
    c8archive

/-- C10: the element count feeding the complexity label
(`assess_complexity`): when the summary has no `圖片` key it is the table
count alone (0 when `表格` is also absent), ignoring paragraphs and WordArt;
when `圖片` is present it is paragraphs + WordArt + images, ignoring
tables. -/
theorem C10_complexity_count_precedence (d : Summary) :
    (d.images = none → elementsCount d = (d.tables.getD []).length)
    ∧ (∀ imgs, d.images = some imgs →
        elementsCount d = d.paragraphs.length + d.wordArt.length + imgs.length) := by
  constructor
  · intro h
    unfold elementsCount
    rw [h]
    cases d.tables <;> simp
  · intro imgs h
    unfold elementsCount
    rw [h]

/-- Witness for C10: a summary with one paragraph, no `圖片` and no `表格`
key counts 0; the same summary with an empty `圖片` list counts 1. -/
theorem C10_complexity_count_precedence_witness :
    elementsCount { paragraphs := [⟨"word/document.xml", 1, "t", []⟩],
                    wordArt := [], notices := [] } = 0
    ∧ elementsCount { paragraphs := [⟨"word/document.xml", 1, "t", []⟩],
                      wordArt := [], notices := [], images := some [] } = 1 :=
  ⟨(C10_complexity_count_precedence _).1 rfl,
   by
    have h := (C10_complexity_count_precedence
      { paragraphs := [⟨"word/document.xml", 1, "t", []⟩],
        wordArt := [], notices := [], images := some [] }).2 [] rfl
    simpa using h⟩

end DocxSpec
